import Mathlib

/-!
# Verification of the `spheresmooth` fitting engine

A shallow embedding of the Python package `spheresmooth` (a port of the R
package of the same name): spherical geometry primitives (`geometry.py`),
the internal jump penalty and Riemannian gradients (`_internal.py`), and the
penalized spline fitting optimizer (`smoothing.py`).  Machine floats are
modelled as real numbers; numpy arrays as lists; `None`-able parameters as
`Option`; the validation errors raised by
`penalized_linear_spherical_spline` as `Except String`.

Indexing `arr[i]` is modelled with `List.getD`; every theorem below that
depends on indexing carries the well-formedness hypotheses under which the
Python code performs no out-of-bounds access.
-/

open Classical

namespace Spheresmooth

noncomputable section

/-- A point of R^3 (`ndarray (3,)` in the source). -/
@[ext] structure Vec3 where
  x : ℝ
  y : ℝ
  z : ℝ

instance : Zero Vec3 := ⟨⟨0, 0, 0⟩⟩

instance : Inhabited Vec3 := ⟨0⟩

instance : Add Vec3 := ⟨fun u v => ⟨u.x + v.x, u.y + v.y, u.z + v.z⟩⟩

instance : Sub Vec3 := ⟨fun u v => ⟨u.x - v.x, u.y - v.y, u.z - v.z⟩⟩

instance : Neg Vec3 := ⟨fun u => ⟨-u.x, -u.y, -u.z⟩⟩

instance : SMul ℝ Vec3 := ⟨fun c v => ⟨c * v.x, c * v.y, c * v.z⟩⟩

@[simp] theorem Vec3.zero_x : (0 : Vec3).x = 0 := rfl
@[simp] theorem Vec3.zero_y : (0 : Vec3).y = 0 := rfl
@[simp] theorem Vec3.zero_z : (0 : Vec3).z = 0 := rfl
@[simp] theorem Vec3.add_x (u v : Vec3) : (u + v).x = u.x + v.x := rfl
@[simp] theorem Vec3.add_y (u v : Vec3) : (u + v).y = u.y + v.y := rfl
@[simp] theorem Vec3.add_z (u v : Vec3) : (u + v).z = u.z + v.z := rfl
@[simp] theorem Vec3.sub_x (u v : Vec3) : (u - v).x = u.x - v.x := rfl
@[simp] theorem Vec3.sub_y (u v : Vec3) : (u - v).y = u.y - v.y := rfl
@[simp] theorem Vec3.sub_z (u v : Vec3) : (u - v).z = u.z - v.z := rfl
@[simp] theorem Vec3.neg_x (u : Vec3) : (-u).x = -u.x := rfl
@[simp] theorem Vec3.neg_y (u : Vec3) : (-u).y = -u.y := rfl
@[simp] theorem Vec3.neg_z (u : Vec3) : (-u).z = -u.z := rfl
@[simp] theorem Vec3.smul_x (c : ℝ) (v : Vec3) : (c • v).x = c * v.x := rfl
@[simp] theorem Vec3.smul_y (c : ℝ) (v : Vec3) : (c • v).y = c * v.y := rfl
@[simp] theorem Vec3.smul_z (c : ℝ) (v : Vec3) : (c • v).z = c * v.z := rfl

/-- Standard basis vectors, used for concrete test inputs. -/
def e1 : Vec3 := ⟨1, 0, 0⟩

def e2 : Vec3 := ⟨0, 1, 0⟩

def e3 : Vec3 := ⟨0, 0, 1⟩

/-- `_restrict(x, lower, upper)` from `_internal.py`: clamp below, then above. -/
def restrict (v lower upper : ℝ) : ℝ := min (max v lower) upper

/-- `_Acos` from `_internal.py`: arccos on the input clamped to [-1, 1]. -/
def Acos (v : ℝ) : ℝ := Real.arccos (restrict v (-1) 1)

/-- `dot(u, v)` from `geometry.py`. -/
def dot (u v : Vec3) : ℝ := u.x * v.x + u.y * v.y + u.z * v.z

/-- `np.cross(u, v)` as used by `geometry.py`. -/
def cross (u v : Vec3) : Vec3 :=
  ⟨u.y * v.z - u.z * v.y, u.z * v.x - u.x * v.z, u.x * v.y - u.y * v.x⟩

/-- `norm2(u)` from `geometry.py` (the Euclidean norm). -/
def norm2 (u : Vec3) : ℝ := Real.sqrt (dot u u)

/-- `normalize_lower(v)` from `geometry.py`: `v if n == 0 else v / n`. -/
def normalize_lower (v : Vec3) : Vec3 :=
  if norm2 v = 0 then v else (norm2 v)⁻¹ • v

/-- `normalize` from `geometry.py` restricted to single vectors (the matrix
case applies `normalize_lower` row by row and is not needed here). -/
def normalize (v : Vec3) : Vec3 := normalize_lower v

/-- `spherical_dist(x, y)` from `geometry.py`. -/
def spherical_dist (a b : Vec3) : ℝ :=
  Acos (dot (normalize_lower a) (normalize_lower b))

/-- `exp_map(x, v)` from `geometry.py`; the branch on `sum(v*v) == 0` guards
the division by `norm_v`. -/
def exp_map (a v : Vec3) : Vec3 :=
  let a := normalize_lower a
  if dot v v = 0 then a
  else
    let nv := norm2 v
    Real.cos nv • a + (Real.sin nv / nv) • v

/-- `np.clip(s, lo, hi)`. -/
def clip (s lo hi : ℝ) : ℝ := min (max s lo) hi

/-- `geodesic_lower(t, p, q, a, b)` from `geometry.py`: slerp with the
fractional position clamped to [0, 1] and an identity fallback when the
great-circle angle is below 1e-12. -/
def geodesic_lower (t : ℝ) (p q : Vec3) (a b : ℝ) : Vec3 :=
  let p := normalize p
  let q := normalize q
  let omega := spherical_dist p q
  if omega < 1e-12 then p
  else
    let s := clip ((t - a) / (b - a)) 0 1
    let coef_p := Real.sin ((1 - s) * omega) / Real.sin omega
    let coef_q := Real.sin (s * omega) / Real.sin omega
    normalize (coef_p • p + coef_q • q)

/-- The scalar branch of `geodesic(t, p, q, a, b)` from `geometry.py`
(`np.isscalar(t)` true).  Note it does not clamp `(t-a)/(b-a)`. -/
def geodesic (t : ℝ) (p q : Vec3) (a b : ℝ) : Vec3 :=
  let p := normalize p
  let q := normalize q
  let dist_pq := spherical_dist p q
  if dist_pq < 1e-12 then p
  else
    let theta := dist_pq * (t - a) / (b - a)
    let n := cross p q
    let n_norm := norm2 n
    if n_norm < 1e-12 then p
    else
      let n := n_norm⁻¹ • n
      let w := cross n p
      let w := (norm2 w)⁻¹ • w
      normalize (Real.cos theta • p + Real.sin theta • w)

/-- The vector branch of `geodesic` from `geometry.py`: apply
`geodesic_lower` to each entry of `t` independently. -/
def geodesic_vec (ts : List ℝ) (p q : Vec3) (a b : ℝ) : List Vec3 :=
  ts.map fun ti => geodesic_lower ti p q a b

/-- The boolean mask `(t >= a) & (t < b)` applied to `t` itself. -/
def filterIn (a b : ℝ) : List ℝ → List ℝ
  | [] => []
  | v :: vs => if a ≤ v ∧ v < b then v :: filterIn a b vs else filterIn a b vs

/-- `piecewise_geodesic(t, control_points, knots)` from `geometry.py`:
iterate the segments `j = 0 .. K-2`, take the `t` in `[knots[j], knots[j+1])`
in input order, append each non-empty block of geodesic points, stack
(`np.vstack`, modelled by `List.join`). -/
def piecewise_geodesic (t : List ℝ) (cp : List Vec3) (knots : List ℝ) :
    List Vec3 :=
  let K := cp.length
  (((List.range (K - 1)).foldl (fun gammaList j =>
      let a := knots.getD j 0
      let b := knots.getD (j + 1) 0
      let tSub := filterIn a b t
      if tSub = [] then gammaList
      else gammaList ++ [geodesic_vec tSub (cp.getD j 0) (cp.getD (j + 1) 0) a b])
    []).flatten)

/-- `calculate_loss(y, gamma)` from `smoothing.py`: half the sum of squared
spherical distances, looping over the rows of `y`. -/
def calculate_loss (y gamma : List Vec3) : ℝ :=
  0.5 * ((List.range y.length).map fun i =>
    (spherical_dist (y.getD i 0) (gamma.getD i 0)) ^ 2).sum

/-- Insert a value into a sorted list, keeping it sorted. -/
def sortedInsert (v : ℝ) : List ℝ → List ℝ
  | [] => [v]
  | w :: ws => if v ≤ w then v :: w :: ws else w :: sortedInsert v ws

/-- Sort a list of reals (insertion sort). -/
def sortList (l : List ℝ) : List ℝ := l.foldr sortedInsert []

/-- `np.unique(x)`: the sorted distinct values of `x`. -/
def npUnique (l : List ℝ) : List ℝ := (sortList l).dedup

/-- `arr.min()` on a nonempty array (0 on the empty array, where numpy
raises). -/
def npMin : List ℝ → ℝ
  | [] => 0
  | v :: vs => vs.foldl min v

/-- `arr.max()` on a nonempty array (0 on the empty array, where numpy
raises). -/
def npMax : List ℝ → ℝ
  | [] => 0
  | v :: vs => vs.foldl max v

/-- The inner `quantile_type3(values, p)` of `knots_quantile`: R's type-3
quantile, `index = clip(floor(n*p + 0.5), 1, n)` (1-based) into the sorted
values.  Out-of-range indexing (possible when `values` is empty, where numpy
raises) is modelled by `List.getD`. -/
def quantile_type3 (values : List ℝ) (p : ℝ) : ℝ :=
  let n := values.length
  let h : ℤ := min (max ⌊(n : ℝ) * p + 0.5⌋ 1) (n : ℤ)
  values.getD (h - 1).toNat 0

/-- `knots_quantile(x, dimension, tiny)` from `smoothing.py`. -/
def knots_quantile (t : List ℝ) (dimension : ℕ) (tiny : ℝ) : List ℝ :=
  let xs := npUnique t
  let d := if dimension < 2 then 2 else dimension
  let number_interior := d - 2
  if number_interior = 0 then [npMin xs - tiny, npMax xs + tiny]
  else
    let probs := (List.range number_interior).map fun k =>
      ((k + 1 : ℕ) : ℝ) / ((number_interior : ℝ) + 1)
    let x_mid := (xs.drop 1).dropLast
    let interior := probs.map (quantile_type3 x_mid)
    [npMin xs - tiny] ++ interior ++ [npMax xs + tiny]

/-- `_jump_linear(control_points, knots)` from `_internal.py`: one 3-vector
jump per interior control point. -/
def jump_linear (cp : List Vec3) (knots : List ℝ) : List Vec3 :=
  (List.range (cp.length - 2)).map fun j =>
    let p1 := cp.getD j 0
    let p2 := cp.getD (j + 1) 0
    let p3 := cp.getD (j + 2) 0
    let theta1 := Acos (dot p1 p2)
    let theta2 := Acos (dot p2 p3)
    let d1 := knots.getD (j + 1) 0 - knots.getD j 0
    let d2 := knots.getD (j + 2) 0 - knots.getD (j + 1) 0
    let a := theta2 / (Real.sin theta2 * d2)
    let c := theta1 / (Real.sin theta1 * d1)
    let b1 := Real.cos theta2 * a
    let b2 := Real.cos theta1 * c
    a • p3 - (b1 + b2) • p2 + c • p1

/-- `np.sum(np.sum(jumps**2, axis=1))`: the total squared entries of a list
of 3-vectors. -/
def sum_sq (l : List Vec3) : ℝ := (l.map fun v => dot v v).sum

/-- Sum of a list of 3-vectors. -/
def vsum (l : List Vec3) : Vec3 := l.foldr (· + ·) 0

/-- `_calculate_R_s(theta, s)` from `_internal.py`. -/
def calculate_R_s (theta s : ℝ) : ℝ :=
  if theta = 0 then 0 else Real.sin (theta * s) / Real.sin theta

/-- `_calculate_Q_s(theta, s)` from `_internal.py`. -/
def calculate_Q_s (theta s : ℝ) : ℝ :=
  (Real.sin (s * theta) * Real.cos theta - s * Real.cos (s * theta) * Real.sin theta)
    / (Real.sin theta) ^ 3

/-- `_calculate_Apsi(psi)` from `_internal.py`. -/
def calculate_Apsi (psi : ℝ) : ℝ := if psi = 0 then 0 else psi / Real.sin psi

/-- `_calculate_projection_p(p, y)` from `_internal.py`: remove the radial
component at `p`. -/
def calculate_projection_p (p v : Vec3) : Vec3 := v - (dot p v) • p

/-- `np.outer(a, b)` as the linear map `v := a * <b, v>`. -/
def outer (a b : Vec3) : Vec3 → Vec3 := fun v => (dot b v) • a

/-- `np.eye(3)` as a linear map. -/
def matEye : Vec3 → Vec3 := fun v => v

/-- `_gradient_linear_point(t, control_points, index)` from `_internal.py`,
as a linear map on R^3. -/
def gradient_linear_point (t : ℝ) (cp : List Vec3) (index : ℕ) : Vec3 → Vec3 :=
  let p1 := cp.getD 0 0
  let p2 := cp.getD 1 0
  let theta := Acos (dot p1 p2)
  let Q_t := calculate_Q_s theta t
  let Q_1_t := calculate_Q_s theta (1 - t)
  if index = 1 then
    fun v => calculate_R_s theta (1 - t) • matEye v
      + Q_1_t • outer p2 p1 v + Q_t • outer p2 p2 v
  else if index = 2 then
    fun v => calculate_R_s theta t • matEye v
      + Q_1_t • outer p1 p1 v + Q_t • outer p1 p2 v
  else fun _ => 0

/-- `_Rgradient_loss_point_linear(y, t, control_points, index)` from
`_internal.py`. -/
def Rgradient_loss_point_linear (yv : Vec3) (t : ℝ) (cp : List Vec3)
    (index : ℕ) : Vec3 :=
  let gamma_t := geodesic t (cp.getD 0 0) (cp.getD 1 0) 0 1
  let phi := Acos (dot yv gamma_t)
  let grad_linear := gradient_linear_point t cp index
  let proj := calculate_projection_p (cp.getD (index - 1) 0) (grad_linear yv)
  (-(calculate_Apsi phi)) • proj

/-- `_Rgradient_loss_linear(y, t, control_points, index)` from
`_internal.py`: sum of the point-wise gradients. -/
def Rgradient_loss_linear (y : List Vec3) (t : List ℝ) (cp : List Vec3)
    (index : ℕ) : Vec3 :=
  vsum ((List.range t.length).map fun i =>
    Rgradient_loss_point_linear (y.getD i 0) (t.getD i 0) cp index)

/-- The indices of `t` selected by the mask `(t >= a) & (t < b)` (boolean
masking of the parallel arrays `t` and `y`, modelled by index selection). -/
def maskIdx (a b : ℝ) (t : List ℝ) : List ℕ :=
  (List.range t.length).filter fun i => decide (a ≤ t.getD i 0 ∧ t.getD i 0 < b)

/-- `_Rgradient_loss_linear_spline(y, t, control_points, knots, index)` from
`_internal.py` (`index` is 1-based). -/
def Rgradient_loss_linear_spline (y : List Vec3) (t : List ℝ) (cp : List Vec3)
    (knots : List ℝ) (index : ℕ) : Vec3 :=
  let J := cp.length
  let leftGrad :=
    if 1 < index then
      let k0 := knots.getD (index - 2) 0
      let k1 := knots.getD (index - 1) 0
      let cpLeft := [cp.getD (index - 2) 0, cp.getD (index - 1) 0]
      let idxs := maskIdx k0 k1 t
      if idxs = [] then 0
      else
        Rgradient_loss_linear (idxs.map fun i => y.getD i 0)
          (idxs.map fun i => (t.getD i 0 - k0) / (k1 - k0)) cpLeft 2
    else 0
  let rightGrad :=
    if index < J then
      let k0 := knots.getD (index - 1) 0
      let k1 := knots.getD index 0
      let cpRight := [cp.getD (index - 1) 0, cp.getD index 0]
      let idxs := maskIdx k0 k1 t
      if idxs = [] then 0
      else
        Rgradient_loss_linear (idxs.map fun i => y.getD i 0)
          (idxs.map fun i => (t.getD i 0 - k0) / (k1 - k0)) cpRight 1
    else 0
  leftGrad + rightGrad

/-- `_R_gradient_penalty(control_points, knots, index)` from `_internal.py`
(`index` is 1-based; `idx = index - 1` is the 0-based position); the three
cases accumulate into `R_grad`. -/
def R_gradient_penalty (cp : List Vec3) (knots : List ℝ) (index : ℕ) : Vec3 :=
  let m := cp.length
  let idx := index - 1
  let g1 :=
    if idx < m - 2 then
      let delta1 := knots.getD (idx + 1) 0 - knots.getD idx 0
      let delta2 := knots.getD (idx + 2) 0 - knots.getD (idx + 1) 0
      let theta1 := Acos (dot (cp.getD (idx + 1) 0) (cp.getD idx 0))
      let theta2 := Acos (dot (cp.getD (idx + 2) 0) (cp.getD (idx + 1) 0))
      let a_j_minus := theta1 / (Real.sin theta1 * delta1)
      let a_j := theta2 / (Real.sin theta2 * delta2)
      let b_j := Real.cos theta1 * a_j
      let b_j_minus := Real.cos theta2 * a_j_minus
      let d := a_j_minus • cp.getD idx 0 - (b_j + b_j_minus) • cp.getD (idx + 1) 0
        + a_j • cp.getD (idx + 2) 0
      let A := ((Real.cos theta1 * theta1 - Real.sin theta1) / (Real.sin theta1) ^ 3)
          * a_j * dot (cp.getD idx 0) (cp.getD (idx + 2) 0)
        + ((Real.cos theta2 * Real.cos theta1 * Real.sin theta1
            - Real.cos theta2 * theta1) / (Real.sin theta1) ^ 3) * a_j_minus
        - a_j_minus
      let B := theta1 / Real.sin theta1 * a_j
      let grad := (-(A * Real.cos theta1 + B * dot (cp.getD idx 0) (cp.getD (idx + 2) 0)))
          • cp.getD idx 0 + A • cp.getD (idx + 1) 0 + B • cp.getD (idx + 2) 0
      (norm2 d * delta1)⁻¹ • grad
    else 0
  let g2 :=
    if 0 < idx ∧ idx < m - 1 then
      let delta1 := knots.getD idx 0 - knots.getD (idx - 1) 0
      let delta2 := knots.getD (idx + 1) 0 - knots.getD idx 0
      let theta1 := Acos (dot (cp.getD idx 0) (cp.getD (idx - 1) 0))
      let theta2 := Acos (dot (cp.getD (idx + 1) 0) (cp.getD idx 0))
      let a_j_minus := theta1 / (Real.sin theta1 * delta1)
      let a_j := theta2 / (Real.sin theta2 * delta2)
      let b_j := Real.cos theta1 * a_j
      let b_j_minus := Real.cos theta2 * a_j_minus
      let d := a_j_minus • cp.getD (idx - 1) 0 - (b_j + b_j_minus) • cp.getD idx 0
        + a_j • cp.getD (idx + 1) 0
      let w1 := (Real.cos theta2 * theta2 - Real.sin theta2) / (Real.sin theta2) ^ 3
      let w2 := (Real.cos theta1 * theta1 - Real.sin theta1) / (Real.sin theta1) ^ 3
      let A1 := w1 * (-(Real.cos theta1) * Real.cos theta2 * a_j_minus
        + dot (cp.getD (idx - 1) 0) (cp.getD (idx + 1) 0) * a_j_minus) - a_j
      let B1 := theta2 * Real.cos theta2 / Real.sin theta2
      let A2 := w2 * (-(Real.cos theta2) * Real.cos theta1 * a_j
        + dot (cp.getD (idx - 1) 0) (cp.getD (idx + 1) 0) * a_j) - a_j_minus
      let B2 := theta1 * Real.cos theta1 / Real.sin theta1
      let grad := delta2⁻¹ • ((-(A1 * Real.cos theta2 + B1 * Real.cos theta1)) • cp.getD idx 0
          + A1 • cp.getD (idx + 1) 0 + B1 • cp.getD (idx - 1) 0)
        + delta1⁻¹ • ((-(A2 * Real.cos theta1 + B2 * Real.cos theta2)) • cp.getD idx 0
          + A2 • cp.getD (idx - 1) 0 + B2 • cp.getD (idx + 1) 0)
      (norm2 d)⁻¹ • grad
    else 0
  let g3 :=
    if 1 < idx then
      let delta2 := knots.getD idx 0 - knots.getD (idx - 1) 0
      let delta1 := knots.getD (idx - 1) 0 - knots.getD (idx - 2) 0
      let theta1 := Acos (dot (cp.getD (idx - 1) 0) (cp.getD (idx - 2) 0))
      let theta2 := Acos (dot (cp.getD idx 0) (cp.getD (idx - 1) 0))
      let a_j_minus := theta1 / (Real.sin theta1 * delta1)
      let a_j := theta2 / (Real.sin theta2 * delta2)
      let b_j := Real.cos theta1 * a_j
      let b_j_minus := Real.cos theta2 * a_j_minus
      let d := a_j_minus • cp.getD (idx - 2) 0 - (b_j + b_j_minus) • cp.getD (idx - 1) 0
        + a_j • cp.getD idx 0
      let A := ((Real.cos theta2 * theta2 - Real.sin theta2) / (Real.sin theta2) ^ 3)
          * a_j_minus * dot (cp.getD (idx - 2) 0) (cp.getD idx 0)
        + ((Real.cos theta1 * Real.cos theta2 * Real.sin theta2
            - Real.cos theta1 * theta2) / (Real.sin theta2) ^ 3) * a_j_minus
        - a_j
      let B := theta2 / Real.sin theta2 * a_j_minus
      let grad := (-(A * Real.cos theta2 + B * dot (cp.getD (idx - 2) 0) (cp.getD idx 0)))
          • cp.getD idx 0 + A • cp.getD (idx - 1) 0 + B • cp.getD (idx - 2) 0
      (norm2 d * delta2)⁻¹ • grad
    else 0
  g1 + g2 + g3

/-- `np.delete(l, s)`: drop the listed indices, keeping the rest in order. -/
def np_delete {α : Type} [Inhabited α] (l : List α) (s : List ℕ) : List α :=
  (((List.range l.length).filter fun i => !(decide (i ∈ s))).map
    fun i => l.getD i default)

/-- The mutable state of the optimizer loop of
`penalized_linear_spherical_spline`: committed control points, the trial
shadow `temp_cp`, knots, the `dimension` and `number_penalty` loop
variables, the running objective `Rlambda` and the convergence reference
`Rlambda_stored` (`none` models the initial `np.inf`). -/
structure OptState where
  cp : List Vec3
  tempCp : List Vec3
  knots : List ℝ
  dimension : ℕ
  numberPenalty : ℕ
  Rlambda : ℝ
  RlambdaStored : Option ℝ

/-- One trial of the backtracking line search at a given `step`
(`smoothing.py` lines 200-210): tentative point by exponential map,
renormalized, written into the shadow `temp_cp`, and the recomputed total
objective. -/
def lsTrial (t : List ℝ) (y : List Vec3) (tempCp : List Vec3) (knots : List ℝ)
    (idx : ℕ) (base grad : Vec3) (lam : ℝ) (numberPenalty : ℕ) (step : ℝ) :
    List Vec3 × ℝ :=
  let cpTmp := exp_map base (-(step • grad))
  let cpTmp := (norm2 cpTmp)⁻¹ • cpTmp
  let tempCp := tempCp.set idx cpTmp
  let gamma := piecewise_geodesic t tempCp knots
  let loss := calculate_loss y gamma
  let Rnew := if 0 < numberPenalty ∧ 0 < lam then
      loss + lam * Real.sqrt (sum_sq (jump_linear tempCp knots))
    else loss
  (tempCp, Rnew)

/-- The `for _ in range(100)` backtracking loop (`smoothing.py` lines
199-214), with explicit remaining-iteration fuel: run a trial; stop on the
first trial whose objective does not exceed `Rstep`; otherwise halve the
step and continue; when the iterations are exhausted keep the last trial
unconditionally.  (Fuel 0 is never reached from `lineSearch`.) -/
def lineSearchAux (t : List ℝ) (y : List Vec3) (tempCp : List Vec3)
    (knots : List ℝ) (idx : ℕ) (base grad : Vec3) (lam : ℝ)
    (numberPenalty : ℕ) (Rstep : ℝ) : ℕ → ℝ → List Vec3 × ℝ
  | 0, _ => (tempCp, Rstep)
  | fuel + 1, step =>
    let r := lsTrial t y tempCp knots idx base grad lam numberPenalty step
    if r.2 ≤ Rstep then r
    else
      match fuel with
      | 0 => r
      | m + 1 =>
        lineSearchAux t y tempCp knots idx base grad lam numberPenalty Rstep
          (m + 1) (step * 0.5)

/-- The full backtracking line search: 100 trial iterations starting at
`step = step_size`. -/
def lineSearch (t : List ℝ) (y : List Vec3) (tempCp : List Vec3)
    (knots : List ℝ) (idx : ℕ) (base grad : Vec3) (lam : ℝ)
    (numberPenalty : ℕ) (Rstep stepSize : ℝ) : List Vec3 × ℝ :=
  lineSearchAux t y tempCp knots idx base grad lam numberPenalty Rstep 100
    stepSize

/-- One control-point update (`smoothing.py` lines 189-217) for the 1-based
coordinate `j`: gradient of loss plus `lam` times gradient of penalty, line
search, commit the accepted point and objective. -/
def updatePoint (t : List ℝ) (y : List Vec3) (lam stepSize : ℝ)
    (s : OptState) (j : ℕ) : OptState :=
  let idx := j - 1
  let gradLoss := Rgradient_loss_linear_spline y t s.cp s.knots (idx + 1)
  let gradPen := R_gradient_penalty s.cp s.knots (idx + 1)
  let grad := gradLoss + lam • gradPen
  let res := lineSearch t y s.tempCp s.knots idx (s.cp.getD idx 0) grad lam
    s.numberPenalty s.Rlambda stepSize
  { s with cp := s.cp.set idx (res.1.getD idx 0), tempCp := res.1,
           Rlambda := res.2 }

/-- One full coordinate pass: `for j in range(1, dimension+1)`. -/
def updatePass (t : List ℝ) (y : List Vec3) (lam stepSize : ℝ)
    (s : OptState) : OptState :=
  (List.range' 1 s.dimension).foldl (updatePoint t y lam stepSize) s

/-- The pruning pass (`smoothing.py` lines 222-244): skipped when there are
no interior points or `lam = 0`; otherwise interior points whose weighted
jump energy is below `jump_eps` are deleted, at the same index, from both
the control points and the knots, and `dimension`, `number_penalty` and
`temp_cp` are refreshed from the survivors. -/
def pruneStep (lam jumpEps : ℝ) (s : OptState) : OptState :=
  if 0 < s.numberPenalty ∧ 0 < lam then
    let jumps := jump_linear s.cp s.knots
    let jumpSize := (List.range s.numberPenalty).map fun k =>
      let w := ((s.knots.getD (k + 2) 0 - s.knots.getD (k + 1) 0)
        + (s.knots.getD (k + 1) 0 - s.knots.getD k 0)) / 2
      dot (w • jumps.getD k 0) (w • jumps.getD k 0)
    let pruneIdx := (List.range s.numberPenalty).filter fun k =>
      decide (jumpSize.getD k 0 < jumpEps)
    if pruneIdx = [] then s
    else
      let cp := np_delete s.cp (pruneIdx.map (· + 1))
      let knots := np_delete s.knots (pruneIdx.map (· + 1))
      { s with cp := cp, knots := knots, dimension := cp.length,
               numberPenalty := cp.length - 2, tempCp := cp }
  else s

/-- The post-pass objective used by the convergence check (`smoothing.py`
lines 249-255): loss of the curve through `temp_cp` plus, when applicable,
the penalty of the committed control points. -/
def convergeObjective (t : List ℝ) (y : List Vec3) (lam : ℝ) (s : OptState) :
    ℝ :=
  let gamma := piecewise_geodesic t s.tempCp s.knots
  let loss := calculate_loss y gamma
  if 0 < s.numberPenalty ∧ 0 < lam then
    loss + lam * Real.sqrt (sum_sq (jump_linear s.cp s.knots))
  else loss

/-- The convergence test `abs(Rlambda_new - Rlambda_stored) < epsilon_iter`;
a `none` store models the initial `np.inf`, which never satisfies it. -/
def convergedWith (epsIter Rnew : ℝ) : Option ℝ → Prop
  | none => False
  | some prev => |Rnew - prev| < epsIter

/-- The block-coordinate-descent inner loop (`for it in range(maxiter)`):
coordinate pass, pruning pass, convergence check against the stored
objective. -/
def innerLoop (t : List ℝ) (y : List Vec3) (lam stepSize epsIter jumpEps : ℝ) :
    ℕ → OptState → OptState
  | 0, s => s
  | fuel + 1, s =>
    let s1 := updatePass t y lam stepSize s
    let s2 := pruneStep lam jumpEps s1
    let Rnew := convergeObjective t y lam s2
    if convergedWith epsIter Rnew s2.RlambdaStored then s2
    else
      innerLoop t y lam stepSize epsIter jumpEps fuel
        { s2 with RlambdaStored := some Rnew, Rlambda := Rnew }

/-- The per-lambda fit snapshot appended to `fit_list`. -/
structure FitRecord where
  gamma : List Vec3
  control_points : List Vec3
  knots : List ℝ
  dimension : ℕ
  lam : ℝ

instance : Inhabited FitRecord := ⟨⟨[], [], [], 0, 0⟩⟩

/-- The dictionary returned by `penalized_linear_spherical_spline`. -/
structure PlssResult where
  fits : List FitRecord
  bic_list : List ℝ
  dimension_list : List ℕ

/-- The `for lam_idx in range(number_lambdas)` outer loop (`smoothing.py`
lines 171-281): refresh `number_penalty`, run the inner loop, then save the
fit, its BIC `n*log(R) + 3*log(n)*K` (with `R = calculate_loss(y, gamma)`
recomputed from `temp_cp`) and the surviving dimension; the next lambda
warm-starts from the final state. -/
def outerFold (t : List ℝ) (y : List Vec3) (stepSize : ℝ) (maxiter : ℕ)
    (epsIter jumpEps : ℝ) : List ℝ → OptState → PlssResult
  | [], _ => ⟨[], [], []⟩
  | lam :: rest, s =>
    let s0 := { s with numberPenalty := s.cp.length - 2 }
    let s1 := innerLoop t y lam stepSize epsIter jumpEps maxiter s0
    let gamma := piecewise_geodesic t s1.tempCp s1.knots
    let R := calculate_loss y gamma
    let fit : FitRecord := ⟨gamma, s1.cp, s1.knots, s1.cp.length, lam⟩
    let bic := (t.length : ℝ) * Real.log R
      + 3 * Real.log (t.length : ℝ) * (s1.cp.length : ℝ)
    let restResult := outerFold t y stepSize maxiter epsIter jumpEps rest s1
    ⟨fit :: restResult.fits, bic :: restResult.bic_list,
      s1.cp.length :: restResult.dimension_list⟩

/-- The initial optimizer state (`smoothing.py` lines 153-164): `temp_cp` a
copy of the control points, `Rlambda_stored = np.inf` (`none`). -/
def initState (cp0 : List Vec3) (knots0 : List ℝ) (dim0 : ℕ) (Rlambda0 : ℝ) :
    OptState :=
  ⟨cp0, cp0, knots0, dim0, 0, Rlambda0, none⟩

/-- `penalized_linear_spherical_spline` after input validation: initial
objective (adding the penalty when `lambdas[0] > 0`), then the outer loop
over the lambdas. -/
def plssRun (t : List ℝ) (y : List Vec3) (cp0 : List Vec3) (dim0 : ℕ)
    (knots0 : List ℝ) (lambdas : List ℝ) (stepSize : ℝ) (maxiter : ℕ)
    (epsIter jumpEps : ℝ) : PlssResult :=
  let gamma0 := piecewise_geodesic t cp0 knots0
  let R0 := calculate_loss y gamma0
  let lam0 := lambdas.getD 0 0
  let Rlambda0 := if 0 < lam0 then
      R0 + lam0 * Real.sqrt (sum_sq (jump_linear cp0 knots0))
    else R0
  outerFold t y stepSize maxiter epsIter jumpEps lambdas
    (initState cp0 knots0 dim0 Rlambda0)

/-- `np.linspace(1, n, num=dimension)`. -/
def linspace1n (n d : ℕ) : List ℝ :=
  if d = 1 then [1]
  else (List.range d).map fun k => 1 + (k : ℝ) * ((n : ℝ) - 1) / ((d : ℝ) - 1)

/-- `penalized_linear_spherical_spline(t, y, ...)` from `smoothing.py`,
validation included: absent `lambdas`, absent `dimension` with no initial
control points, and absent `initial_knots` raise (modelled as
`Except.error`) before the optimization starts; otherwise the optimizer
runs.  The lengths of `t` and `y` are not checked. -/
def penalized_linear_spherical_spline (t : List ℝ) (y : List Vec3)
    (initial_control_points : Option (List Vec3)) (dimension : Option ℕ)
    (initial_knots : Option (List ℝ)) (lambdas : Option (List ℝ))
    (step_size : ℝ) (maxiter : ℕ) (epsilon_iter jump_eps : ℝ) :
    Except String PlssResult :=
  let n := t.length
  match lambdas with
  | none => .error "lambdas must be provided."
  | some ls =>
    match initial_control_points, dimension with
    | none, none =>
      .error "dimension must be specified when initial_control_points is None."
    | none, some d =>
      let idx := (linspace1n n d).map fun v => (⌊v - 1⌋).toNat
      let cp := idx.map fun i => y.getD i 0
      match initial_knots with
      | none => .error "initial_knots must be provided."
      | some ks =>
        .ok (plssRun t y cp d ks ls step_size maxiter epsilon_iter jump_eps)
    | some cp0, _ =>
      let d := dimension.getD cp0.length
      match initial_knots with
      | none => .error "initial_knots must be provided."
      | some ks =>
        .ok (plssRun t y cp0 d ks ls step_size maxiter epsilon_iter jump_eps)

/-- Whether a call returned normally (no raise). -/
def isOk : Except String PlssResult → Prop
  | .ok _ => True
  | .error _ => False

/-- Modelled from the spec's words, for the refinement comparison of the
recorded BIC: `BIC = n*ln(R) + 3*ln(n)*K` with `R` "the final
loss-plus-penalty objective value". -/
def bic_spec (n : ℕ) (R : ℝ) (K : ℕ) : ℝ :=
  (n : ℝ) * Real.log R + 3 * Real.log (n : ℝ) * (K : ℝ)

/-- The loss-plus-penalty objective of a configuration, assembled from the
source's loss and penalty terms (the `R` the spec's BIC formula refers to). -/
def objective_total (t : List ℝ) (y : List Vec3) (lam : ℝ) (cp : List Vec3)
    (knots : List ℝ) : ℝ :=
  calculate_loss y (piecewise_geodesic t cp knots)
    + lam * Real.sqrt (sum_sq (jump_linear cp knots))

/-- The per-segment blocks of `piecewise_geodesic`, in segment order. -/
def segmentPieces (t : List ℝ) (cp : List Vec3) (knots : List ℝ) :
    List (List Vec3) :=
  (List.range (cp.length - 1)).map fun j =>
    geodesic_vec (filterIn (knots.getD j 0) (knots.getD (j + 1) 0) t)
      (cp.getD j 0) (cp.getD (j + 1) 0) (knots.getD j 0) (knots.getD (j + 1) 0)

end

/-! ## Basic facts about the vector primitives -/

theorem dot_self_nonneg (v : Vec3) : 0 ≤ dot v v := by
  have := sq_nonneg v.x
  have := sq_nonneg v.y
  have := sq_nonneg v.z
  simp only [dot]
  nlinarith

theorem dot_comm (u v : Vec3) : dot u v = dot v u := by
  simp only [dot]; ring

theorem norm2_eq_zero_iff (v : Vec3) : norm2 v = 0 ↔ dot v v = 0 := by
  constructor
  · intro h
    have h0 := dot_self_nonneg v
    have := (Real.sqrt_eq_zero h0).mp h
    exact this
  · intro h
    simp [norm2, h]

theorem norm2_unit {p : Vec3} (hp : dot p p = 1) : norm2 p = 1 := by
  simp [norm2, hp]

theorem one_smul_vec (v : Vec3) : (1 : ℝ) • v = v := by
  ext <;> simp

theorem normalize_lower_unit {p : Vec3} (hp : dot p p = 1) :
    normalize_lower p = p := by
  have h1 : norm2 p = 1 := norm2_unit hp
  simp only [normalize_lower, h1]
  norm_num [one_smul_vec]

theorem normalize_unit {p : Vec3} (hp : dot p p = 1) : normalize p = p :=
  normalize_lower_unit hp

theorem dot_smul_smul (c : ℝ) (v : Vec3) : dot (c • v) (c • v) = c ^ 2 * dot v v := by
  simp only [dot, Vec3.smul_x, Vec3.smul_y, Vec3.smul_z]; ring

theorem norm2_smul (c : ℝ) (v : Vec3) : norm2 (c • v) = |c| * norm2 v := by
  simp only [norm2, dot_smul_smul]
  rw [Real.sqrt_mul (sq_nonneg c), Real.sqrt_sq_eq_abs]

theorem normalize_lower_idem (v : Vec3) :
    normalize_lower (normalize_lower v) = normalize_lower v := by
  by_cases h : norm2 v = 0
  · simp [normalize_lower, h]
  · have hpos : 0 < norm2 v :=
      lt_of_le_of_ne (Real.sqrt_nonneg _) (Ne.symm h)
    have hnn : normalize_lower v = (norm2 v)⁻¹ • v := by
      simp [normalize_lower, h]
    have h1 : norm2 (normalize_lower v) = 1 := by
      rw [hnn, norm2_smul, abs_of_pos (inv_pos.mpr hpos)]
      field_simp
    have hone : dot (normalize_lower v) (normalize_lower v) = 1 := by
      have := congrArg (· ^ 2) h1
      simpa [norm2, Real.sq_sqrt (dot_self_nonneg (normalize_lower v))] using this
    exact normalize_lower_unit hone

theorem spherical_dist_normalize (a b : Vec3) :
    spherical_dist (normalize_lower a) (normalize_lower b) = spherical_dist a b := by
  simp [spherical_dist, normalize_lower_idem]

theorem restrict_eq_self {v : ℝ} (h1 : -1 ≤ v) (h2 : v ≤ 1) :
    restrict v (-1) 1 = v := by
  simp [restrict, max_eq_left h1, min_eq_left h2]

theorem spherical_dist_self_unit {p : Vec3} (hp : dot p p = 1) :
    spherical_dist p p = 0 := by
  simp [spherical_dist, normalize_lower_unit hp, hp,
    restrict_eq_self (by norm_num : (-1:ℝ) ≤ 1) (le_refl (1:ℝ)), Acos]

theorem dot_e1_e1 : dot e1 e1 = 1 := by simp [dot, e1]

theorem dot_e2_e2 : dot e2 e2 = 1 := by simp [dot, e2]

theorem dot_e3_e3 : dot e3 e3 = 1 := by simp [dot, e3]

theorem dot_e1_e2 : dot e1 e2 = 0 := by simp [dot, e1, e2]

theorem dot_e2_e3 : dot e2 e3 = 0 := by simp [dot, e2, e3]

/-! ## Claim C10: zero tangent vector in `exp_map` -/

theorem exp_map_zero_tangent {x v : Vec3} (h : dot v v = 0) :
    exp_map x v = normalize_lower x := by
  simp [exp_map, h]

/-- Claim C10: for every input point `x` and every tangent vector `v` of
zero norm, `exp_map(x, v)` returns the unit-normalization of `x` through the
guarded branch (`sum(v*v) == 0`), so the division by `norm(v)` is never
reached with a zero denominator: zero norm coincides with the code's
`sum(v*v) == 0` test, under which the function returns `normalize_lower x`. -/
theorem claim_C10 (x v : Vec3) (h : norm2 v = 0) :
    dot v v = 0 ∧ exp_map x v = normalize_lower x := by
  have hd : dot v v = 0 := (norm2_eq_zero_iff v).mp h
  exact ⟨hd, exp_map_zero_tangent hd⟩

/-- Witness for C10 at `x = e1`, `v = 0`. -/
theorem claim_C10_witness :
    norm2 (0 : Vec3) = 0 ∧
      (dot (0 : Vec3) (0 : Vec3) = 0 ∧ exp_map e1 0 = normalize_lower e1) := by
  have h : norm2 (0 : Vec3) = 0 := by simp [norm2, dot]
  exact ⟨h, claim_C10 e1 0 h⟩

/-! ## Claim C8: degenerate endpoints in `geodesic` and `geodesic_lower` -/

theorem geodesic_lower_deg (t : ℝ) (p q : Vec3) (a b : ℝ)
    (h : spherical_dist p q < 1e-12) : geodesic_lower t p q a b = normalize p := by
  unfold geodesic_lower
  have hd : spherical_dist (normalize p) (normalize q) = spherical_dist p q :=
    spherical_dist_normalize p q
  simp only [normalize] at hd ⊢
  rw [hd, if_pos h]

theorem geodesic_deg (t : ℝ) (p q : Vec3) (a b : ℝ)
    (h : spherical_dist p q < 1e-12) : geodesic t p q a b = normalize p := by
  unfold geodesic
  have hd : spherical_dist (normalize p) (normalize q) = spherical_dist p q :=
    spherical_dist_normalize p q
  simp only [normalize] at hd ⊢
  rw [hd, if_pos h]

/-- Claim C8: whenever the great-circle angle `omega` between the (unit)
endpoints is below the 1e-12 degeneracy threshold, both `geodesic_lower` and
the scalar `geodesic` return the endpoint `p` unchanged through the guarded
identity fallback, with no division by `sin(omega)`; both functions are
total, so no error is raised. -/
theorem claim_C8 (p q : Vec3) (t a b : ℝ) (hp : dot p p = 1)
    (hdeg : spherical_dist p q < 1e-12) :
    geodesic_lower t p q a b = p ∧ geodesic t p q a b = p := by
  constructor
  · rw [geodesic_lower_deg t p q a b hdeg, normalize_unit hp]
  · rw [geodesic_deg t p q a b hdeg, normalize_unit hp]

/-- Witness for C8 at coincident endpoints `p = q = e1`, with
`omega = arccos(1) = 0 < 1e-12`. -/
theorem claim_C8_witness :
    dot e1 e1 = 1 ∧ spherical_dist e1 e1 < 1e-12 ∧
      (geodesic_lower 0.3 e1 e1 2 5 = e1 ∧ geodesic 0.3 e1 e1 2 5 = e1) := by
  have h1 : dot e1 e1 = 1 := dot_e1_e1
  have h2 : spherical_dist e1 e1 < 1e-12 := by
    rw [spherical_dist_self_unit h1]; norm_num
  exact ⟨h1, h2, claim_C8 e1 e1 0.3 2 5 h1 h2⟩

/-! ## Claim C9: `knots_quantile` boundary knots -/

theorem sortList_cons (v : ℝ) (l : List ℝ) :
    sortList (v :: l) = sortedInsert v (sortList l) := rfl

theorem mem_sortedInsert (a v : ℝ) (l : List ℝ) :
    a ∈ sortedInsert v l ↔ a = v ∨ a ∈ l := by
  induction l with
  | nil => simp [sortedInsert]
  | cons w ws ih =>
    simp only [sortedInsert]
    split_ifs
    · simp
    · simp [ih]; tauto

theorem mem_sortList (a : ℝ) (l : List ℝ) : a ∈ sortList l ↔ a ∈ l := by
  induction l with
  | nil => simp [sortList]
  | cons v vs ih => rw [sortList_cons, mem_sortedInsert, ih]; simp

theorem mem_npUnique (a : ℝ) (l : List ℝ) : a ∈ npUnique l ↔ a ∈ l := by
  rw [npUnique, List.mem_dedup, mem_sortList]

theorem foldl_min_mem (l : List ℝ) : ∀ a : ℝ, l.foldl min a ∈ a :: l := by
  induction l with
  | nil => intro a; simp
  | cons b l ih =>
    intro a
    have h := ih (min a b)
    rcases min_choice a b with h1 | h1 <;>
      · rw [h1] at h
        simp only [List.foldl_cons, h1]
        rcases List.mem_cons.mp h with h2 | h2 <;> simp [h2]

theorem foldl_min_le (l : List ℝ) :
    ∀ (a b : ℝ), b ∈ a :: l → l.foldl min a ≤ b := by
  induction l with
  | nil => intro a b hb; simp_all
  | cons c l ih =>
    intro a b hb
    simp only [List.foldl_cons]
    rcases List.mem_cons.mp hb with rfl | hb
    · calc l.foldl min (min b c) ≤ min b c :=
            ih (min b c) (min b c) (List.mem_cons_self _ _)
        _ ≤ b := min_le_left _ _
    · rcases List.mem_cons.mp hb with rfl | hb
      · calc l.foldl min (min a b) ≤ min a b :=
              ih (min a b) (min a b) (List.mem_cons_self _ _)
          _ ≤ b := min_le_right _ _
      · exact ih (min a c) b (List.mem_cons_of_mem _ hb)

theorem foldl_max_mem (l : List ℝ) : ∀ a : ℝ, l.foldl max a ∈ a :: l := by
  induction l with
  | nil => intro a; simp
  | cons b l ih =>
    intro a
    have h := ih (max a b)
    rcases max_choice a b with h1 | h1 <;>
      · rw [h1] at h
        simp only [List.foldl_cons, h1]
        rcases List.mem_cons.mp h with h2 | h2 <;> simp [h2]

theorem le_foldl_max (l : List ℝ) :
    ∀ (a b : ℝ), b ∈ a :: l → b ≤ l.foldl max a := by
  induction l with
  | nil => intro a b hb; simp_all
  | cons c l ih =>
    intro a b hb
    simp only [List.foldl_cons]
    rcases List.mem_cons.mp hb with rfl | hb
    · calc b ≤ max b c := le_max_left _ _
        _ ≤ l.foldl max (max b c) :=
            ih (max b c) (max b c) (List.mem_cons_self _ _)
    · rcases List.mem_cons.mp hb with rfl | hb
      · calc b ≤ max a b := le_max_right _ _
          _ ≤ l.foldl max (max a b) :=
              ih (max a b) (max a b) (List.mem_cons_self _ _)
      · exact ih (max a c) b (List.mem_cons_of_mem _ hb)

theorem npMin_mem {l : List ℝ} (h : l ≠ []) : npMin l ∈ l := by
  cases l with
  | nil => exact absurd rfl h
  | cons a l => exact foldl_min_mem l a

theorem npMin_le {l : List ℝ} {b : ℝ} (hb : b ∈ l) : npMin l ≤ b := by
  cases l with
  | nil => simp at hb
  | cons a l => exact foldl_min_le l a b hb

theorem npMax_mem {l : List ℝ} (h : l ≠ []) : npMax l ∈ l := by
  cases l with
  | nil => exact absurd rfl h
  | cons a l => exact foldl_max_mem l a

theorem le_npMax {l : List ℝ} {b : ℝ} (hb : b ∈ l) : b ≤ npMax l := by
  cases l with
  | nil => simp at hb
  | cons a l => exact le_foldl_max l a b hb

theorem npUnique_ne_nil {l : List ℝ} (h : l ≠ []) : npUnique l ≠ [] := by
  cases l with
  | nil => exact absurd rfl h
  | cons a l =>
    exact List.ne_nil_of_mem ((mem_npUnique a (a :: l)).mpr (by simp))

theorem npMin_npUnique {l : List ℝ} (h : l ≠ []) : npMin (npUnique l) = npMin l := by
  apply le_antisymm
  · exact npMin_le ((mem_npUnique _ _).mpr (npMin_mem h))
  · exact npMin_le ((mem_npUnique _ _).mp (npMin_mem (npUnique_ne_nil h)))

theorem npMax_npUnique {l : List ℝ} (h : l ≠ []) : npMax (npUnique l) = npMax l := by
  apply le_antisymm
  · exact le_npMax ((mem_npUnique _ _).mp (npMax_mem (npUnique_ne_nil h)))
  · exact le_npMax ((mem_npUnique _ _).mpr (npMax_mem h))

/-- Claim C9: for nonempty `x` and the default `tiny = 1e-5`,
`knots_quantile(x, 2)` is exactly `[min(x)-tiny, max(x)+tiny]`; for every
dimension the first and last returned knots are `min(x)-tiny` and
`max(x)+tiny`; hence every element of `x` lies strictly inside the half-open
interval between them. -/
theorem claim_C9 (x : List ℝ) (hx : x ≠ []) :
    knots_quantile x 2 1e-5 = [npMin x - 1e-5, npMax x + 1e-5]
    ∧ (∀ d : ℕ, (knots_quantile x d 1e-5).head? = some (npMin x - 1e-5)
        ∧ (knots_quantile x d 1e-5).getLast? = some (npMax x + 1e-5))
    ∧ ∀ xi ∈ x, npMin x - 1e-5 < xi ∧ xi < npMax x + 1e-5 := by
  have hmin := npMin_npUnique hx
  have hmax := npMax_npUnique hx
  refine ⟨?_, ?_, ?_⟩
  · simp [knots_quantile, hmin, hmax]
  · intro d
    by_cases hd : (if d < 2 then 2 else d) - 2 = 0
    · constructor <;> simp [knots_quantile, hd, hmin, hmax]
    · constructor
      · simp [knots_quantile, hd, hmin]
      · rw [knots_quantile]
        simp only [hd, if_false, hmax]
        exact List.getLast?_concat _
  · intro xi hxi
    constructor
    · have := npMin_le hxi
      linarith
    · have := le_npMax hxi
      linarith

/-- Witness for C9 at `x = [2, 1]`. -/
theorem claim_C9_witness :
    ([2, 1] : List ℝ) ≠ []
    ∧ (knots_quantile [2, 1] 2 1e-5 = [npMin [2, 1] - 1e-5, npMax [2, 1] + 1e-5]
      ∧ (∀ d : ℕ, (knots_quantile [2, 1] d 1e-5).head? = some (npMin [2, 1] - 1e-5)
          ∧ (knots_quantile [2, 1] d 1e-5).getLast? = some (npMax [2, 1] + 1e-5))
      ∧ ∀ xi ∈ ([2, 1] : List ℝ),
          npMin [2, 1] - 1e-5 < xi ∧ xi < npMax [2, 1] + 1e-5) :=
  ⟨by simp, claim_C9 [2, 1] (by simp)⟩

/-! ## Claim C4: `piecewise_geodesic` output rows -/

theorem geodesic_vec_length (ts : List ℝ) (p q : Vec3) (a b : ℝ) :
    (geodesic_vec ts p q a b).length = ts.length := by
  simp [geodesic_vec]

theorem pg_foldl_flatten (t : List ℝ) (cp : List Vec3) (knots : List ℝ)
    (l : List ℕ) :
    ∀ init : List (List Vec3),
      (l.foldl (fun gammaList j =>
        let a := knots.getD j 0
        let b := knots.getD (j + 1) 0
        let tSub := filterIn a b t
        if tSub = [] then gammaList
        else gammaList
          ++ [geodesic_vec tSub (cp.getD j 0) (cp.getD (j + 1) 0) a b]) init).flatten
      = init.flatten ++ (l.map fun j =>
          geodesic_vec (filterIn (knots.getD j 0) (knots.getD (j + 1) 0) t)
            (cp.getD j 0) (cp.getD (j + 1) 0) (knots.getD j 0)
            (knots.getD (j + 1) 0)).flatten := by
  induction l with
  | nil => intro init; simp
  | cons j l ih =>
    intro init
    simp only [List.foldl_cons, List.map_cons, List.flatten_cons]
    rw [ih]
    by_cases h : filterIn (knots.getD j 0) (knots.getD (j + 1) 0) t = []
    · rw [if_pos h, h]
      simp [geodesic_vec]
    · rw [if_neg h]
      simp

theorem piecewise_geodesic_eq_flatten (t : List ℝ) (cp : List Vec3)
    (knots : List ℝ) :
    piecewise_geodesic t cp knots = (segmentPieces t cp knots).flatten := by
  unfold piecewise_geodesic segmentPieces
  dsimp only
  rw [pg_foldl_flatten]
  simp

theorem filterIn_empty_of_le {a b : ℝ} (h : b ≤ a) (t : List ℝ) :
    filterIn a b t = [] := by
  induction t with
  | nil => rfl
  | cons v vs ih =>
    simp only [filterIn]
    rw [if_neg (by intro hc; linarith [hc.1, hc.2]), ih]

theorem filterIn_split {a m b : ℝ} (hm1 : a ≤ m) (hm2 : m ≤ b) (t : List ℝ) :
    (filterIn a b t).length
      = (filterIn a m t).length + (filterIn m b t).length := by
  induction t with
  | nil => rfl
  | cons v vs ih =>
    simp only [filterIn]
    by_cases h2 : a ≤ v ∧ v < m
    · have h1 : a ≤ v ∧ v < b := ⟨h2.1, lt_of_lt_of_le h2.2 hm2⟩
      have h3 : ¬(m ≤ v ∧ v < b) := fun hc => absurd h2.2 (not_lt.mpr hc.1)
      rw [if_pos h1, if_pos h2, if_neg h3]
      simp only [List.length_cons]
      omega
    · by_cases h3 : m ≤ v ∧ v < b
      · have h1 : a ≤ v ∧ v < b := ⟨le_trans hm1 h3.1, h3.2⟩
        rw [if_pos h1, if_neg h2, if_pos h3]
        simp only [List.length_cons]
        omega
      · have h1 : ¬(a ≤ v ∧ v < b) := by
          intro hc
          by_cases hvm : v < m
          · exact h2 ⟨hc.1, hvm⟩
          · exact h3 ⟨not_lt.mp hvm, hc.2⟩
        rw [if_neg h1, if_neg h2, if_neg h3]
        exact ih

theorem step_mono (k : ℕ → ℝ) :
    ∀ m : ℕ, (∀ i, i < m → k i ≤ k (i + 1)) → k 0 ≤ k m := by
  intro m
  induction m with
  | zero => intro _; exact le_refl _
  | succ m ih =>
    intro h
    exact le_trans (ih fun i hi => h i (Nat.lt_succ_of_lt hi))
      (h m (Nat.lt_succ_self m))

theorem filterIn_telescope (t : List ℝ) (k : ℕ → ℝ) :
    ∀ m : ℕ, (∀ i, i < m → k i ≤ k (i + 1)) →
      ((List.range m).map fun j => (filterIn (k j) (k (j + 1)) t).length).sum
        = (filterIn (k 0) (k m) t).length := by
  intro m
  induction m with
  | zero =>
    intro _
    simp [filterIn_empty_of_le (le_refl (k 0))]
  | succ m ih =>
    intro h
    rw [List.range_succ, List.map_append, List.sum_append]
    rw [ih fun i hi => h i (Nat.lt_succ_of_lt hi)]
    rw [filterIn_split (step_mono k m fun i hi => h i (Nat.lt_succ_of_lt hi))
      (h m (Nat.lt_succ_self m)) t]
    simp

/-- Claim C4: for control points of length `K >= 2` and a strictly
increasing knot vector of the same length, `piecewise_geodesic` is the
concatenation, in segment order, of the per-segment blocks (each collecting
its members of `t` in input order, not reordered globally), and its number
of rows equals the number of input `t` values in `[knots[0], knots[K-1])` —
values outside that half-open interval produce no row. -/
theorem claim_C4 (t : List ℝ) (cp : List Vec3) (knots : List ℝ)
    (hlen : knots.length = cp.length) (hK : 2 ≤ cp.length)
    (hchain : knots.Chain' (· < ·)) :
    piecewise_geodesic t cp knots = (segmentPieces t cp knots).flatten
    ∧ (piecewise_geodesic t cp knots).length
      = (filterIn (knots.getD 0 0) (knots.getD (cp.length - 1) 0) t).length := by
  have hstep : ∀ i, i < cp.length - 1 →
      knots.getD i 0 ≤ knots.getD (i + 1) 0 := by
    intro i hi
    have hi1 : i + 1 < knots.length := by omega
    have hi0 : i < knots.length := by omega
    have h := List.chain'_iff_get.mp hchain i (by omega)
    simp only [List.get_eq_getElem] at h
    rw [List.getD_eq_getElem _ _ hi0, List.getD_eq_getElem _ _ hi1]
    exact le_of_lt h
  refine ⟨piecewise_geodesic_eq_flatten t cp knots, ?_⟩
  rw [piecewise_geodesic_eq_flatten t cp knots]
  rw [List.length_flatten, segmentPieces, List.map_map]
  have heq : ((fun l : List Vec3 => l.length) ∘ fun j =>
      geodesic_vec (filterIn (knots.getD j 0) (knots.getD (j + 1) 0) t)
        (cp.getD j 0) (cp.getD (j + 1) 0) (knots.getD j 0)
        (knots.getD (j + 1) 0))
      = fun j => (filterIn (knots.getD j 0) (knots.getD (j + 1) 0) t).length := by
    funext j
    simp [geodesic_vec]
  rw [heq]
  exact filterIn_telescope t (fun i => knots.getD i 0) (cp.length - 1) hstep

/-- Witness for C4 at `t = [1/2, 2]`, `cp = [e1, e2]`, `knots = [0, 1]`. -/
theorem claim_C4_witness :
    ([(0 : ℝ), 1] : List ℝ).length = ([e1, e2] : List Vec3).length
    ∧ 2 ≤ ([e1, e2] : List Vec3).length
    ∧ ([(0 : ℝ), 1] : List ℝ).Chain' (· < ·)
    ∧ (piecewise_geodesic [1/2, 2] [e1, e2] [0, 1]
        = (segmentPieces [1/2, 2] [e1, e2] [0, 1]).flatten
      ∧ (piecewise_geodesic [1/2, 2] [e1, e2] [0, 1]).length
        = (filterIn (([(0 : ℝ), 1] : List ℝ).getD 0 0)
            (([(0 : ℝ), 1] : List ℝ).getD (([e1, e2] : List Vec3).length - 1) 0)
            [1/2, 2]).length) := by
  refine ⟨rfl, by norm_num, ?_, ?_⟩
  · simp [List.chain'_cons]
  · exact claim_C4 [1/2, 2] [e1, e2] [0, 1] rfl (by norm_num)
      (by simp [List.chain'_cons])

/-! ## Claim C6: the backtracking line search -/

theorem half_pow (s : ℝ) (k : ℕ) : s * 0.5 / 2 ^ k = s / 2 ^ (k + 1) := by
  have h2 : (2 : ℝ) ^ k ≠ 0 := by positivity
  rw [pow_succ]
  field_simp
  ring

theorem ls_aux_first (t : List ℝ) (y : List Vec3) (tempCp : List Vec3)
    (knots : List ℝ) (idx : ℕ) (base grad : Vec3) (lam : ℝ) (npen : ℕ)
    (Rstep : ℝ) :
    ∀ (fuel j0 : ℕ) (s : ℝ), j0 < fuel →
      (lsTrial t y tempCp knots idx base grad lam npen (s / 2 ^ j0)).2 ≤ Rstep →
      (∀ i, i < j0 →
        ¬ (lsTrial t y tempCp knots idx base grad lam npen (s / 2 ^ i)).2 ≤ Rstep) →
      lineSearchAux t y tempCp knots idx base grad lam npen Rstep fuel s
        = lsTrial t y tempCp knots idx base grad lam npen (s / 2 ^ j0) := by
  intro fuel
  induction fuel with
  | zero => intro j0 s h _ _; omega
  | succ n ih =>
    intro j0 s hj hacc hmin
    match j0 with
    | 0 =>
      rw [show s / 2 ^ 0 = s by norm_num] at hacc ⊢
      cases n with
      | zero => rw [lineSearchAux.eq_2, if_pos hacc]
      | succ m => rw [lineSearchAux.eq_3, if_pos hacc]
    | k + 1 =>
      have h0 : ¬ (lsTrial t y tempCp knots idx base grad lam npen s).2 ≤ Rstep := by
        have h := hmin 0 (Nat.succ_pos k)
        rwa [show s / 2 ^ 0 = s by norm_num] at h
      cases n with
      | zero => omega
      | succ m =>
        rw [lineSearchAux.eq_3, if_neg h0]
        have hacc2 : (lsTrial t y tempCp knots idx base grad lam npen
            (s * 0.5 / 2 ^ k)).2 ≤ Rstep := by
          rwa [half_pow]
        have hmin2 : ∀ i, i < k →
            ¬ (lsTrial t y tempCp knots idx base grad lam npen
              (s * 0.5 / 2 ^ i)).2 ≤ Rstep := by
          intro i hi
          rw [half_pow]
          exact hmin (i + 1) (by omega)
        rw [ih k (s * 0.5) (by omega) hacc2 hmin2, half_pow]

theorem ls_aux_all (t : List ℝ) (y : List Vec3) (tempCp : List Vec3)
    (knots : List ℝ) (idx : ℕ) (base grad : Vec3) (lam : ℝ) (npen : ℕ)
    (Rstep : ℝ) :
    ∀ (fuel : ℕ) (s : ℝ), 1 ≤ fuel →
      (∀ j, j + 1 < fuel →
        ¬ (lsTrial t y tempCp knots idx base grad lam npen (s / 2 ^ j)).2 ≤ Rstep) →
      lineSearchAux t y tempCp knots idx base grad lam npen Rstep fuel s
        = lsTrial t y tempCp knots idx base grad lam npen (s / 2 ^ (fuel - 1)) := by
  intro fuel
  induction fuel with
  | zero => intro s h _; omega
  | succ n ih =>
    intro s _ hfail
    cases n with
    | zero =>
      rw [show s / 2 ^ (1 - 1) = s by norm_num]
      rw [lineSearchAux.eq_2]
      split_ifs <;> rfl
    | succ m =>
      have h0 : ¬ (lsTrial t y tempCp knots idx base grad lam npen s).2 ≤ Rstep := by
        have h := hfail 0 (by omega)
        rwa [show s / 2 ^ 0 = s by norm_num] at h
      rw [lineSearchAux.eq_3, if_neg h0]
      have hfail2 : ∀ j, j + 1 < m + 1 →
          ¬ (lsTrial t y tempCp knots idx base grad lam npen
            (s * 0.5 / 2 ^ j)).2 ≤ Rstep := by
        intro j hj
        rw [half_pow]
        exact hfail (j + 1) (by omega)
      rw [ih (s * 0.5) (by omega) hfail2, half_pow]
      norm_num

/-- Claim C6: the line search runs at most 100 trials, starting at
`step = step_size` and halving between trials; it returns the first trial
whose recomputed total objective does not exceed the pre-step objective
`Rstep`, and if none of the trials succeeds it returns the 100th (final)
trial unconditionally — so it always terminates within 100 objective
evaluations. -/
theorem claim_C6 (t : List ℝ) (y : List Vec3) (tempCp : List Vec3)
    (knots : List ℝ) (idx : ℕ) (base grad : Vec3) (lam : ℝ) (npen : ℕ)
    (Rstep stepSize : ℝ) :
    (∀ j0, j0 < 100 →
      (lsTrial t y tempCp knots idx base grad lam npen (stepSize / 2 ^ j0)).2 ≤ Rstep →
      (∀ i, i < j0 →
        ¬ (lsTrial t y tempCp knots idx base grad lam npen (stepSize / 2 ^ i)).2 ≤ Rstep) →
      lineSearch t y tempCp knots idx base grad lam npen Rstep stepSize
        = lsTrial t y tempCp knots idx base grad lam npen (stepSize / 2 ^ j0))
    ∧ ((∀ j, j < 99 →
        ¬ (lsTrial t y tempCp knots idx base grad lam npen (stepSize / 2 ^ j)).2 ≤ Rstep) →
      lineSearch t y tempCp knots idx base grad lam npen Rstep stepSize
        = lsTrial t y tempCp knots idx base grad lam npen (stepSize / 2 ^ 99)) := by
  constructor
  · intro j0 hj hacc hmin
    exact ls_aux_first t y tempCp knots idx base grad lam npen Rstep 100 j0
      stepSize hj hacc hmin
  · intro hfail
    exact ls_aux_all t y tempCp knots idx base grad lam npen Rstep 100 stepSize
      (by omega) (fun j hj => hfail j (by omega))

/-- Witness for C6: with no data and `lam = 0` the first trial objective is
`0 <= Rstep = 0`, so the search accepts the first trial. -/
theorem claim_C6_witness :
    (0 : ℕ) < 100
    ∧ (lsTrial [] [] [e1] [] 0 e1 (0 : Vec3) 0 0 ((1 : ℝ) / 2 ^ (0 : ℕ))).2 ≤ (0 : ℝ)
    ∧ lineSearch [] [] [e1] [] 0 e1 (0 : Vec3) 0 0 0 1
        = lsTrial [] [] [e1] [] 0 e1 (0 : Vec3) 0 0 ((1 : ℝ) / 2 ^ (0 : ℕ)) := by
  have hacc :
      (lsTrial [] [] [e1] [] 0 e1 (0 : Vec3) 0 0 ((1 : ℝ) / 2 ^ (0 : ℕ))).2 ≤ (0 : ℝ) := by
    simp [lsTrial, piecewise_geodesic, calculate_loss]
  exact ⟨by norm_num, hacc,
    (claim_C6 [] [] [e1] [] 0 e1 (0 : Vec3) 0 0 0 1).1 0 (by norm_num) hacc
      (fun i hi => absurd hi (Nat.not_lt_zero i))⟩

/-! ## Claims C7 and C5: the knots/control-points invariant and
dimension monotonicity -/

theorem lsTrial_fst_length (t : List ℝ) (y : List Vec3) (tempCp : List Vec3)
    (knots : List ℝ) (idx : ℕ) (base grad : Vec3) (lam : ℝ) (npen : ℕ)
    (step : ℝ) :
    (lsTrial t y tempCp knots idx base grad lam npen step).1.length
      = tempCp.length := by
  simp [lsTrial]

theorem ls_aux_fst_length (t : List ℝ) (y : List Vec3) (tempCp : List Vec3)
    (knots : List ℝ) (idx : ℕ) (base grad : Vec3) (lam : ℝ) (npen : ℕ)
    (Rstep : ℝ) :
    ∀ (fuel : ℕ) (s : ℝ),
      (lineSearchAux t y tempCp knots idx base grad lam npen Rstep fuel s).1.length
        = tempCp.length := by
  intro fuel
  induction fuel with
  | zero => intro s; rfl
  | succ n ih =>
    intro s
    cases n with
    | zero =>
      rw [lineSearchAux.eq_2]
      split_ifs <;> apply lsTrial_fst_length
    | succ m =>
      rw [lineSearchAux.eq_3]
      split_ifs
      · apply lsTrial_fst_length
      · apply ih

theorem lineSearch_fst_length (t : List ℝ) (y : List Vec3) (tempCp : List Vec3)
    (knots : List ℝ) (idx : ℕ) (base grad : Vec3) (lam : ℝ) (npen : ℕ)
    (Rstep stepSize : ℝ) :
    (lineSearch t y tempCp knots idx base grad lam npen Rstep stepSize).1.length
      = tempCp.length :=
  ls_aux_fst_length t y tempCp knots idx base grad lam npen Rstep 100 stepSize

theorem updatePoint_facts (t : List ℝ) (y : List Vec3) (lam stepSize : ℝ)
    (s : OptState) (j : ℕ) :
    (updatePoint t y lam stepSize s j).cp.length = s.cp.length
    ∧ (updatePoint t y lam stepSize s j).knots = s.knots
    ∧ (updatePoint t y lam stepSize s j).dimension = s.dimension
    ∧ (updatePoint t y lam stepSize s j).numberPenalty = s.numberPenalty := by
  refine ⟨?_, rfl, rfl, rfl⟩
  simp [updatePoint]

theorem foldl_updatePoint_facts (t : List ℝ) (y : List Vec3) (lam stepSize : ℝ)
    (js : List ℕ) :
    ∀ s : OptState,
      (js.foldl (updatePoint t y lam stepSize) s).cp.length = s.cp.length
      ∧ (js.foldl (updatePoint t y lam stepSize) s).knots = s.knots
      ∧ (js.foldl (updatePoint t y lam stepSize) s).dimension = s.dimension
      ∧ (js.foldl (updatePoint t y lam stepSize) s).numberPenalty
        = s.numberPenalty := by
  induction js with
  | nil => intro s; exact ⟨rfl, rfl, rfl, rfl⟩
  | cons j js ih =>
    intro s
    have h1 := updatePoint_facts t y lam stepSize s j
    have h2 := ih (updatePoint t y lam stepSize s j)
    simp only [List.foldl_cons]
    exact ⟨h2.1.trans h1.1, h2.2.1.trans h1.2.1, h2.2.2.1.trans h1.2.2.1,
      h2.2.2.2.trans h1.2.2.2⟩

theorem updatePass_facts (t : List ℝ) (y : List Vec3) (lam stepSize : ℝ)
    (s : OptState) :
    (updatePass t y lam stepSize s).cp.length = s.cp.length
    ∧ (updatePass t y lam stepSize s).knots = s.knots
    ∧ (updatePass t y lam stepSize s).dimension = s.dimension
    ∧ (updatePass t y lam stepSize s).numberPenalty = s.numberPenalty :=
  foldl_updatePoint_facts t y lam stepSize (List.range' 1 s.dimension) s

theorem np_delete_length {α : Type} [Inhabited α] (l : List α) (s : List ℕ) :
    (np_delete l s).length
      = ((List.range l.length).filter fun i => !(decide (i ∈ s))).length := by
  simp [np_delete]

theorem np_delete_length_le {α : Type} [Inhabited α] (l : List α) (s : List ℕ) :
    (np_delete l s).length ≤ l.length := by
  rw [np_delete_length]
  calc ((List.range l.length).filter fun i => !(decide (i ∈ s))).length
      ≤ (List.range l.length).length := List.length_filter_le _ _
    _ = l.length := by simp

theorem np_delete_length_congr {α β : Type} [Inhabited α] [Inhabited β]
    (l : List α) (l2 : List β) (s : List ℕ) (h : l.length = l2.length) :
    (np_delete l s).length = (np_delete l2 s).length := by
  rw [np_delete_length, np_delete_length, h]

theorem pruneStep_cp_le (lam jumpEps : ℝ) (s : OptState) :
    (pruneStep lam jumpEps s).cp.length ≤ s.cp.length := by
  simp only [pruneStep]
  split_ifs
  · exact le_refl _
  · exact np_delete_length_le _ _
  · exact le_refl _

theorem pruneStep_knots_eq_cp (lam jumpEps : ℝ) (s : OptState)
    (h : s.knots.length = s.cp.length) :
    (pruneStep lam jumpEps s).knots.length = (pruneStep lam jumpEps s).cp.length := by
  simp only [pruneStep]
  split_ifs
  · exact h
  · exact np_delete_length_congr _ _ _ h
  · exact h

theorem pruneStep_dim (lam jumpEps : ℝ) (s : OptState)
    (h : s.dimension = s.cp.length) :
    (pruneStep lam jumpEps s).dimension = (pruneStep lam jumpEps s).cp.length := by
  simp only [pruneStep]
  split_ifs
  · exact h
  · rfl
  · exact h

theorem innerLoop_cp_le (t : List ℝ) (y : List Vec3)
    (lam stepSize epsIter jumpEps : ℝ) :
    ∀ (fuel : ℕ) (s : OptState),
      (innerLoop t y lam stepSize epsIter jumpEps fuel s).cp.length
        ≤ s.cp.length := by
  intro fuel
  induction fuel with
  | zero => intro s; rw [innerLoop]
  | succ n ih =>
    intro s
    rw [innerLoop.eq_2]
    split_ifs with hc
    · exact le_trans (pruneStep_cp_le _ _ _)
        (le_of_eq (updatePass_facts t y lam stepSize s).1)
    · exact le_trans (ih _) (le_trans (pruneStep_cp_le _ _ _)
        (le_of_eq (updatePass_facts t y lam stepSize s).1))

theorem outerFold_lengths (t : List ℝ) (y : List Vec3) (stepSize : ℝ)
    (maxiter : ℕ) (epsIter jumpEps : ℝ) :
    ∀ (ls : List ℝ) (s : OptState),
      (outerFold t y stepSize maxiter epsIter jumpEps ls s).fits.length = ls.length
      ∧ (outerFold t y stepSize maxiter epsIter jumpEps ls s).bic_list.length
        = ls.length
      ∧ (outerFold t y stepSize maxiter epsIter jumpEps ls s).dimension_list.length
        = ls.length := by
  intro ls
  induction ls with
  | nil => intro s; exact ⟨rfl, rfl, rfl⟩
  | cons lam rest ih =>
    intro s
    rw [outerFold.eq_2]
    have h := ih (innerLoop t y lam stepSize epsIter jumpEps maxiter
      { s with numberPenalty := s.cp.length - 2 })
    simp only [List.length_cons]
    exact ⟨by rw [h.1], by rw [h.2.1], by rw [h.2.2]⟩

theorem outerFold_dims_chain (t : List ℝ) (y : List Vec3) (stepSize : ℝ)
    (maxiter : ℕ) (epsIter jumpEps : ℝ) :
    ∀ (ls : List ℝ) (s : OptState),
      List.Chain' (fun a b => b ≤ a)
        (outerFold t y stepSize maxiter epsIter jumpEps ls s).dimension_list
      ∧ ∀ d0 ∈ (outerFold t y stepSize maxiter epsIter jumpEps ls
          s).dimension_list.head?, d0 ≤ s.cp.length := by
  intro ls
  induction ls with
  | nil => intro s; exact ⟨List.chain'_nil, by simp [outerFold]⟩
  | cons lam rest ih =>
    intro s
    rw [outerFold.eq_2]
    have hle : (innerLoop t y lam stepSize epsIter jumpEps maxiter
        { s with numberPenalty := s.cp.length - 2 }).cp.length ≤ s.cp.length :=
      innerLoop_cp_le t y lam stepSize epsIter jumpEps maxiter _
    constructor
    · rw [List.chain'_cons']
      exact ⟨fun h hh => (ih _).2 h hh, (ih _).1⟩
    · intro d0 hd0
      simp only [List.head?_cons, Option.mem_def, Option.some.injEq] at hd0
      rw [← hd0]
      exact hle

/-- Claim C7: `len(knots) == len(control_points)` is established at
initialization (given equally long initial inputs) and preserved by every
control-point update and every pruning pass; pruning deletes control points
and knots at the same indices and records the surviving count in
`dimension`. -/
theorem claim_C7 (t : List ℝ) (y : List Vec3) (lam stepSize jumpEps : ℝ)
    (s : OptState) (j : ℕ) (cp0 : List Vec3) (knots0 : List ℝ) (dim0 : ℕ)
    (R0 : ℝ) (h1 : s.knots.length = s.cp.length)
    (h2 : s.dimension = s.cp.length) (h3 : knots0.length = cp0.length) :
    ((updatePoint t y lam stepSize s j).knots.length
      = (updatePoint t y lam stepSize s j).cp.length)
    ∧ ((updatePoint t y lam stepSize s j).dimension
      = (updatePoint t y lam stepSize s j).cp.length)
    ∧ ((pruneStep lam jumpEps s).knots.length
      = (pruneStep lam jumpEps s).cp.length)
    ∧ ((pruneStep lam jumpEps s).dimension = (pruneStep lam jumpEps s).cp.length)
    ∧ (initState cp0 knots0 dim0 R0).knots.length
      = (initState cp0 knots0 dim0 R0).cp.length := by
  have hu := updatePoint_facts t y lam stepSize s j
  refine ⟨?_, ?_, pruneStep_knots_eq_cp lam jumpEps s h1,
    pruneStep_dim lam jumpEps s h2, h3⟩
  · rw [hu.2.1, hu.1, h1]
  · rw [hu.2.2.1, hu.1, h2]

/-- Witness for C7 at a concrete two-point state. -/
theorem claim_C7_witness :
    (OptState.mk [e1, e2] [e1, e2] [0, 1] 2 0 0 none).knots.length
      = (OptState.mk [e1, e2] [e1, e2] [0, 1] 2 0 0 none).cp.length
    ∧ (OptState.mk [e1, e2] [e1, e2] [0, 1] 2 0 0 none).dimension
      = (OptState.mk [e1, e2] [e1, e2] [0, 1] 2 0 0 none).cp.length
    ∧ ([(0 : ℝ), 1] : List ℝ).length = ([e1, e2] : List Vec3).length
    ∧ (((updatePoint [] [] 0 1 (OptState.mk [e1, e2] [e1, e2] [0, 1] 2 0 0 none)
          1).knots.length
        = (updatePoint [] [] 0 1 (OptState.mk [e1, e2] [e1, e2] [0, 1] 2 0 0 none)
          1).cp.length)
      ∧ ((updatePoint [] [] 0 1 (OptState.mk [e1, e2] [e1, e2] [0, 1] 2 0 0 none)
          1).dimension
        = (updatePoint [] [] 0 1 (OptState.mk [e1, e2] [e1, e2] [0, 1] 2 0 0 none)
          1).cp.length)
      ∧ ((pruneStep 0 1e-4 (OptState.mk [e1, e2] [e1, e2] [0, 1] 2 0 0 none)).knots.length
        = (pruneStep 0 1e-4 (OptState.mk [e1, e2] [e1, e2] [0, 1] 2 0 0 none)).cp.length)
      ∧ ((pruneStep 0 1e-4 (OptState.mk [e1, e2] [e1, e2] [0, 1] 2 0 0 none)).dimension
        = (pruneStep 0 1e-4 (OptState.mk [e1, e2] [e1, e2] [0, 1] 2 0 0 none)).cp.length)
      ∧ (initState [e1, e2] [0, 1] 2 0).knots.length
        = (initState [e1, e2] [0, 1] 2 0).cp.length) := by
  refine ⟨rfl, rfl, rfl, ?_⟩
  exact claim_C7 [] [] 0 1 1e-4 (OptState.mk [e1, e2] [e1, e2] [0, 1] 2 0 0 none)
    1 [e1, e2] [0, 1] 2 0 rfl rfl rfl

/-- Claim C5: for every input and every (increasing) lambda sequence, the
returned `dimension_list` is non-increasing: across the warm-started runs
the control-point count can only shrink (pruning deletes, nothing adds). -/
theorem claim_C5 (t : List ℝ) (y : List Vec3) (cp0 : List Vec3) (dim0 : ℕ)
    (knots0 : List ℝ) (lambdas : List ℝ) (stepSize : ℝ) (maxiter : ℕ)
    (epsIter jumpEps : ℝ) (i : ℕ) (hinc : lambdas.Chain' (· < ·))
    (hi : i + 1 < (plssRun t y cp0 dim0 knots0 lambdas stepSize maxiter epsIter
      jumpEps).dimension_list.length) :
    (plssRun t y cp0 dim0 knots0 lambdas stepSize maxiter epsIter
        jumpEps).dimension_list.getD (i + 1) 0
      ≤ (plssRun t y cp0 dim0 knots0 lambdas stepSize maxiter epsIter
        jumpEps).dimension_list.getD i 0 := by
  have hch : List.Chain' (fun a b => b ≤ a)
      (plssRun t y cp0 dim0 knots0 lambdas stepSize maxiter epsIter
        jumpEps).dimension_list := by
    simp only [plssRun]
    exact (outerFold_dims_chain t y stepSize maxiter epsIter jumpEps lambdas _).1
  have hget := List.chain'_iff_get.mp hch i (by omega)
  simp only [List.get_eq_getElem] at hget
  rw [List.getD_eq_getElem _ _ (by omega), List.getD_eq_getElem _ _ (by omega)]
  exact hget

theorem plssRun_dims_length (t : List ℝ) (y : List Vec3) (cp0 : List Vec3)
    (dim0 : ℕ) (knots0 : List ℝ) (lambdas : List ℝ) (stepSize : ℝ)
    (maxiter : ℕ) (epsIter jumpEps : ℝ) :
    (plssRun t y cp0 dim0 knots0 lambdas stepSize maxiter epsIter
      jumpEps).dimension_list.length = lambdas.length := by
  simp only [plssRun]
  exact (outerFold_lengths t y stepSize maxiter epsIter jumpEps lambdas _).2.2

/-- Witness for C5 at `lambdas = [0, 1]` with `maxiter = 0`. -/
theorem claim_C5_witness :
    ([(0 : ℝ), 1] : List ℝ).Chain' (· < ·)
    ∧ 0 + 1 < (plssRun [0] [e1] [e1, e2] 2 [0, 1] [0, 1] 1 0 1e-3
        1e-4).dimension_list.length
    ∧ (plssRun [0] [e1] [e1, e2] 2 [0, 1] [0, 1] 1 0 1e-3
        1e-4).dimension_list.getD (0 + 1) 0
      ≤ (plssRun [0] [e1] [e1, e2] 2 [0, 1] [0, 1] 1 0 1e-3
        1e-4).dimension_list.getD 0 0 := by
  have hlen : (plssRun [0] [e1] [e1, e2] 2 [0, 1] [0, 1] 1 0 1e-3
      1e-4).dimension_list.length = 2 := by
    rw [plssRun_dims_length]; rfl
  have hinc : ([(0 : ℝ), 1] : List ℝ).Chain' (· < ·) := by
    simp [List.chain'_cons]
  have hi : 0 + 1 < (plssRun [0] [e1] [e1, e2] 2 [0, 1] [0, 1] 1 0 1e-3
      1e-4).dimension_list.length := by
    rw [hlen]; norm_num
  exact ⟨hinc, hi,
    claim_C5 [0] [e1] [e1, e2] 2 [0, 1] [0, 1] 1 0 1e-3 1e-4 0 hinc hi⟩

/-! ## Claim C2: input validation of `penalized_linear_spherical_spline` -/

/-- Claim C2 (as amended): the function rejects an absent `lambdas`
sequence, an unspecified `dimension` with no initial control points, and an
absent `initial_knots` synchronously, as `Except.error`, before any
optimization state is built — and when all required inputs are present the
result is `Except.ok` of the optimizer run, so errors can only arise from
this validation.  The lengths of `t` and `y` are never compared (see the
counterexample). -/
theorem claim_C2 :
    (∀ (t : List ℝ) (y : List Vec3) (icp : Option (List Vec3))
      (dim : Option ℕ) (ik : Option (List ℝ)) (ss : ℝ) (mi : ℕ) (ei je : ℝ),
      penalized_linear_spherical_spline t y icp dim ik none ss mi ei je
        = .error "lambdas must be provided.")
    ∧ (∀ (t : List ℝ) (y : List Vec3) (ik : Option (List ℝ)) (ls : List ℝ)
      (ss : ℝ) (mi : ℕ) (ei je : ℝ),
      penalized_linear_spherical_spline t y none none ik (some ls) ss mi ei je
        = .error "dimension must be specified when initial_control_points is None.")
    ∧ (∀ (t : List ℝ) (y : List Vec3) (cp0 : List Vec3) (dim : Option ℕ)
      (ls : List ℝ) (ss : ℝ) (mi : ℕ) (ei je : ℝ),
      penalized_linear_spherical_spline t y (some cp0) dim none (some ls) ss mi ei je
        = .error "initial_knots must be provided.")
    ∧ (∀ (t : List ℝ) (y : List Vec3) (d : ℕ) (ls : List ℝ) (ss : ℝ) (mi : ℕ)
      (ei je : ℝ),
      penalized_linear_spherical_spline t y none (some d) none (some ls) ss mi ei je
        = .error "initial_knots must be provided.")
    ∧ (∀ (t : List ℝ) (y : List Vec3) (cp0 : List Vec3) (dim : Option ℕ)
      (ks ls : List ℝ) (ss : ℝ) (mi : ℕ) (ei je : ℝ),
      penalized_linear_spherical_spline t y (some cp0) dim (some ks) (some ls) ss mi ei je
        = .ok (plssRun t y cp0 (dim.getD cp0.length) ks ls ss mi ei je)) := by
  refine ⟨fun _ _ _ _ _ _ _ _ _ => rfl, fun _ _ _ _ _ _ _ _ => rfl,
    fun _ _ _ _ _ _ _ _ _ => rfl, fun _ _ _ _ _ _ _ _ => rfl,
    fun _ _ _ _ _ _ _ _ _ _ => rfl⟩

/-- Counterexample for C2: `t` has 2 entries and `y` has 1, yet the call is
not rejected — the validation never compares the lengths of `t` and `y`,
and the run proceeds. -/
theorem claim_C2_counterexample :
    ([(0 : ℝ), 1] : List ℝ).length ≠ ([e1] : List Vec3).length
    ∧ isOk (penalized_linear_spherical_spline [0, 1] [e1] (some [e1, e2]) none
        (some [0, 1]) (some [0]) 1 0 1e-3 1e-4) := by
  constructor
  · norm_num
  · exact trivial

/-! ## Claim C3: clamping and boundary exactness of the geodesic -/

theorem lagrange_identity (p q : Vec3) :
    dot (cross p q) (cross p q) + (dot p q) ^ 2 = dot p p * dot q q := by
  simp only [dot, cross]
  ring

theorem dot_bounds {p q : Vec3} (hp : dot p p = 1) (hq : dot q q = 1) :
    -1 ≤ dot p q ∧ dot p q ≤ 1 := by
  have h := lagrange_identity p q
  have hc := dot_self_nonneg (cross p q)
  rw [hp, hq] at h
  constructor
  · nlinarith [sq_nonneg (dot p q + 1)]
  · nlinarith [sq_nonneg (dot p q - 1)]

theorem spherical_dist_units {p q : Vec3} (hp : dot p p = 1) (hq : dot q q = 1) :
    spherical_dist p q = Real.arccos (dot p q) := by
  have hd := dot_bounds hp hq
  rw [spherical_dist, normalize_lower_unit hp, normalize_lower_unit hq, Acos,
    restrict_eq_self hd.1 hd.2]

theorem omega_ge {d : ℝ} (hsin : 1e-12 ≤ Real.sin (Real.arccos d)) :
    1e-12 ≤ Real.arccos d := by
  rcases eq_or_lt_of_le (Real.arccos_nonneg d) with h | h
  · rw [← h, Real.sin_zero] at hsin
    norm_num at hsin
  · exact le_of_lt (lt_of_le_of_lt hsin (Real.sin_lt h))

theorem cross_smul_left (c : ℝ) (u v : Vec3) :
    cross (c • u) v = c • cross u v := by
  ext <;> simp [cross] <;> ring

theorem cross_cross_self (p q : Vec3) :
    cross (cross p q) p = (dot p p) • q - (dot q p) • p := by
  ext <;> simp [cross, dot] <;> ring

theorem dot_sub_smul (q p : Vec3) (d : ℝ) :
    dot (q - d • p) (q - d • p)
      = dot q q - 2 * d * dot p q + d ^ 2 * dot p p := by
  simp only [dot, Vec3.sub_x, Vec3.sub_y, Vec3.sub_z, Vec3.smul_x, Vec3.smul_y,
    Vec3.smul_z]
  ring

theorem geodesic_eval (p q : Vec3) (t a b : ℝ) (hp : dot p p = 1)
    (hq : dot q q = 1) (hsin : 1e-12 ≤ Real.sin (Real.arccos (dot p q))) :
    geodesic t p q a b
      = normalize (Real.cos (Real.arccos (dot p q) * (t - a) / (b - a)) • p
        + Real.sin (Real.arccos (dot p q) * (t - a) / (b - a))
          • ((Real.sin (Real.arccos (dot p q)))⁻¹ • (q - dot p q • p))) := by
  have hd := dot_bounds hp hq
  have hsd : spherical_dist p q = Real.arccos (dot p q) := spherical_dist_units hp hq
  have homega : 1e-12 ≤ Real.arccos (dot p q) := omega_ge hsin
  have hsinpos : 0 < Real.sin (Real.arccos (dot p q)) :=
    lt_of_lt_of_le (by norm_num) hsin
  have hsinne : Real.sin (Real.arccos (dot p q)) ≠ 0 := ne_of_gt hsinpos
  have hcross : dot (cross p q) (cross p q) = 1 - (dot p q) ^ 2 := by
    have h := lagrange_identity p q
    rw [hp, hq] at h
    linarith
  have hnn : norm2 (cross p q) = Real.sin (Real.arccos (dot p q)) := by
    rw [norm2, hcross, Real.sin_arccos]
  simp only [geodesic]
  rw [normalize_unit hp, normalize_unit hq, hsd, if_neg (not_lt.mpr homega),
    hnn, if_neg (not_lt.mpr hsin)]
  have hw : cross ((Real.sin (Real.arccos (dot p q)))⁻¹ • cross p q) p
      = (Real.sin (Real.arccos (dot p q)))⁻¹ • (q - dot p q • p) := by
    rw [cross_smul_left, cross_cross_self, hp, dot_comm q p]
    congr 1
    ext <;> simp
  rw [hw]
  have hs2 : (Real.sin (Real.arccos (dot p q))) ^ 2 = 1 - (dot p q) ^ 2 := by
    rw [Real.sin_arccos]
    exact Real.sq_sqrt (by nlinarith [hd.1, hd.2])
  have hwnorm : norm2 ((Real.sin (Real.arccos (dot p q)))⁻¹ • (q - dot p q • p))
      = 1 := by
    have h1 : dot (q - dot p q • p) (q - dot p q • p) = 1 - (dot p q) ^ 2 := by
      rw [dot_sub_smul, hp, hq]
      ring
    rw [norm2, dot_smul_smul, h1, ← hs2]
    have h2 : (Real.sin (Real.arccos (dot p q)))⁻¹ ^ 2
        * (Real.sin (Real.arccos (dot p q))) ^ 2 = 1 := by
      field_simp
    rw [h2, Real.sqrt_one]
  rw [hwnorm, inv_one, one_smul_vec]

theorem geodesic_boundary (p q : Vec3) (hp : dot p p = 1) (hq : dot q q = 1)
    (hsin : 1e-12 ≤ Real.sin (Real.arccos (dot p q))) :
    geodesic 0 p q 0 1 = p ∧ geodesic 1 p q 0 1 = q := by
  have hd := dot_bounds hp hq
  have hsinne : Real.sin (Real.arccos (dot p q)) ≠ 0 :=
    ne_of_gt (lt_of_lt_of_le (by norm_num) hsin)
  constructor
  · rw [geodesic_eval p q 0 0 1 hp hq hsin]
    rw [show Real.arccos (dot p q) * ((0 : ℝ) - 0) / (1 - 0) = 0 by ring]
    rw [Real.cos_zero, Real.sin_zero]
    have hv : (1 : ℝ) • p + (0 : ℝ)
        • ((Real.sin (Real.arccos (dot p q)))⁻¹ • (q - dot p q • p)) = p := by
      ext <;> simp
    rw [hv]
    exact normalize_unit hp
  · rw [geodesic_eval p q 1 0 1 hp hq hsin]
    rw [show Real.arccos (dot p q) * ((1 : ℝ) - 0) / (1 - 0)
      = Real.arccos (dot p q) by ring]
    rw [Real.cos_arccos hd.1 hd.2]
    have hv : dot p q • p + Real.sin (Real.arccos (dot p q))
        • ((Real.sin (Real.arccos (dot p q)))⁻¹ • (q - dot p q • p)) = q := by
      ext <;> field_simp
    rw [hv]
    exact normalize_unit hq

theorem geodesic_lower_clamped (p q : Vec3) (a b t : ℝ) (hp : dot p p = 1)
    (hq : dot q q = 1) (hsin : 1e-12 ≤ Real.sin (Real.arccos (dot p q)))
    (hab : a < b) :
    (t ≤ a → geodesic_lower t p q a b = p)
    ∧ (b ≤ t → geodesic_lower t p q a b = q) := by
  have hsd : spherical_dist p q = Real.arccos (dot p q) := spherical_dist_units hp hq
  have homega : 1e-12 ≤ Real.arccos (dot p q) := omega_ge hsin
  have hsinpos : 0 < Real.sin (Real.arccos (dot p q)) :=
    lt_of_lt_of_le (by norm_num) hsin
  have hba : (0 : ℝ) < b - a := by linarith
  constructor
  · intro hta
    simp only [geodesic_lower]
    rw [normalize_unit hp, normalize_unit hq, hsd, if_neg (not_lt.mpr homega)]
    have hs : clip ((t - a) / (b - a)) 0 1 = 0 := by
      have h1 : (t - a) / (b - a) ≤ 0 :=
        div_nonpos_of_nonpos_of_nonneg (by linarith) (le_of_lt hba)
      rw [clip, max_eq_right h1, min_eq_left (by norm_num : (0:ℝ) ≤ 1)]
    rw [hs]
    simp only [sub_zero, one_mul, zero_mul, Real.sin_zero, zero_div]
    rw [div_self (ne_of_gt hsinpos)]
    have hv : (1 : ℝ) • p + (0 : ℝ) • q = p := by ext <;> simp
    rw [hv]
    exact normalize_unit hp
  · intro hbt
    simp only [geodesic_lower]
    rw [normalize_unit hp, normalize_unit hq, hsd, if_neg (not_lt.mpr homega)]
    have hs : clip ((t - a) / (b - a)) 0 1 = 1 := by
      have h1 : (1 : ℝ) ≤ (t - a) / (b - a) := (one_le_div hba).mpr (by linarith)
      rw [clip, max_eq_left (le_trans (by norm_num) h1), min_eq_right h1]
    rw [hs]
    simp only [sub_self, zero_mul, Real.sin_zero, zero_div, one_mul]
    rw [div_self (ne_of_gt hsinpos)]
    have hv : (0 : ℝ) • p + (1 : ℝ) • q = q := by ext <;> simp
    rw [hv]
    exact normalize_unit hq

/-- Claim C3 (as amended): for unit endpoints whose great-circle angle has
`sin(omega) >= 1e-12` (non-degenerate, non-antipodal), the clamping of the
fractional position holds for `geodesic_lower` — and hence for the
vectorized form, which maps `geodesic_lower` over `t` — giving the endpoint
`p` for `t <= a` and `q` for `t >= b`; and both forms are boundary-exact at
`t = 0` and `t = 1` on the window `[0, 1]`.  The scalar `geodesic` does NOT
clamp `(t-a)/(b-a)` (see the counterexample). -/
theorem claim_C3 (p q : Vec3) (a b t : ℝ) (hp : dot p p = 1)
    (hq : dot q q = 1) (hsin : 1e-12 ≤ Real.sin (Real.arccos (dot p q)))
    (hab : a < b) :
    (t ≤ a → geodesic_lower t p q a b = p)
    ∧ (b ≤ t → geodesic_lower t p q a b = q)
    ∧ geodesic 0 p q 0 1 = p ∧ geodesic 1 p q 0 1 = q := by
  obtain ⟨h1, h2⟩ := geodesic_lower_clamped p q a b t hp hq hsin hab
  obtain ⟨h3, h4⟩ := geodesic_boundary p q hp hq hsin
  exact ⟨h1, h2, h3, h4⟩

/-- Counterexample for C3: the scalar `geodesic` does not clamp the
fractional position — at `t = -1 <= a = 0` it walks backwards past `p` and
returns `-q`, not the endpoint `p`. -/
theorem claim_C3_counterexample :
    geodesic (-1) e1 e2 0 1 = Vec3.mk 0 (-1) 0 ∧ Vec3.mk 0 (-1) 0 ≠ e1 := by
  have hsin : (1e-12 : ℝ) ≤ Real.sin (Real.arccos (dot e1 e2)) := by
    rw [dot_e1_e2, Real.arccos_zero, Real.sin_pi_div_two]
    norm_num
  constructor
  · rw [geodesic_eval e1 e2 (-1) 0 1 dot_e1_e1 dot_e2_e2 hsin]
    rw [dot_e1_e2, Real.arccos_zero]
    rw [show Real.pi / 2 * ((-1 : ℝ) - 0) / (1 - 0) = -(Real.pi / 2) by ring]
    rw [Real.cos_neg, Real.sin_neg, Real.cos_pi_div_two, Real.sin_pi_div_two]
    have hv : (0 : ℝ) • e1 + (-1 : ℝ) • ((1 : ℝ)⁻¹ • (e2 - (0 : ℝ) • e1))
        = Vec3.mk 0 (-1) 0 := by
      ext <;> simp [e1, e2]
    rw [hv]
    exact normalize_unit (by simp [dot])
  · intro h
    have h2 := congrArg Vec3.y h
    simp [e1] at h2

/-- Witness for C3 at `p = e1`, `q = e2`, window `[0, 1]`, `t = 0`. -/
theorem claim_C3_witness :
    dot e1 e1 = 1 ∧ dot e2 e2 = 1
    ∧ (1e-12 : ℝ) ≤ Real.sin (Real.arccos (dot e1 e2)) ∧ (0 : ℝ) < 1
    ∧ (((0 : ℝ) ≤ 0 → geodesic_lower 0 e1 e2 0 1 = e1)
      ∧ ((1 : ℝ) ≤ 0 → geodesic_lower 0 e1 e2 0 1 = e2)
      ∧ geodesic 0 e1 e2 0 1 = e1 ∧ geodesic 1 e1 e2 0 1 = e2) := by
  have hsin : (1e-12 : ℝ) ≤ Real.sin (Real.arccos (dot e1 e2)) := by
    rw [dot_e1_e2, Real.arccos_zero, Real.sin_pi_div_two]
    norm_num
  exact ⟨dot_e1_e1, dot_e2_e2, hsin, by norm_num,
    claim_C3 e1 e2 0 1 0 dot_e1_e1 dot_e2_e2 hsin (by norm_num)⟩

/-! ## Claim C1: the recorded BIC -/

theorem outerFold_bic (t : List ℝ) (y : List Vec3) (stepSize : ℝ)
    (maxiter : ℕ) (epsIter jumpEps : ℝ) :
    ∀ (ls : List ℝ) (s : OptState) (i : ℕ), i < ls.length →
      ((outerFold t y stepSize maxiter epsIter jumpEps ls s).bic_list.getD i 0
        = (t.length : ℝ) * Real.log (calculate_loss y
            (((outerFold t y stepSize maxiter epsIter jumpEps ls s).fits.getD i
              default).gamma))
          + 3 * Real.log (t.length : ℝ)
            * ((((outerFold t y stepSize maxiter epsIter jumpEps ls s).fits.getD i
              default).control_points.length : ℕ) : ℝ))
      ∧ ((outerFold t y stepSize maxiter epsIter jumpEps ls s).dimension_list.getD
          i 0
        = ((outerFold t y stepSize maxiter epsIter jumpEps ls s).fits.getD i
            default).control_points.length) := by
  intro ls
  induction ls with
  | nil => intro s i hi; simp at hi
  | cons lam rest ih =>
    intro s i hi
    rw [outerFold.eq_2]
    cases i with
    | zero => exact ⟨by simp, by simp⟩
    | succ i =>
      simp only [List.getD_cons_succ]
      exact ih _ i (by simpa using hi)

theorem plssRun_fits_length (t : List ℝ) (y : List Vec3) (cp0 : List Vec3)
    (dim0 : ℕ) (knots0 : List ℝ) (lambdas : List ℝ) (stepSize : ℝ)
    (maxiter : ℕ) (epsIter jumpEps : ℝ) :
    (plssRun t y cp0 dim0 knots0 lambdas stepSize maxiter epsIter
      jumpEps).fits.length = lambdas.length := by
  simp only [plssRun]
  exact (outerFold_lengths t y stepSize maxiter epsIter jumpEps lambdas _).1

/-- Claim C1 (as amended): for every lambda the recorded BIC equals
`n*ln(R) + 3*ln(n)*K` where `R` is the PURE loss of the saved curve — the
lambda-weighted penalty term is NOT included in `R` — `K` is the saved
control-point count, and `n = len(t)`; the recorded dimension equals that
same `K`. -/
theorem claim_C1 (t : List ℝ) (y : List Vec3) (cp0 : List Vec3) (dim0 : ℕ)
    (knots0 : List ℝ) (lambdas : List ℝ) (stepSize : ℝ) (maxiter : ℕ)
    (epsIter jumpEps : ℝ) (i : ℕ)
    (hi : i < (plssRun t y cp0 dim0 knots0 lambdas stepSize maxiter epsIter
      jumpEps).fits.length) :
    ((plssRun t y cp0 dim0 knots0 lambdas stepSize maxiter epsIter
        jumpEps).bic_list.getD i 0
      = (t.length : ℝ) * Real.log (calculate_loss y
          (((plssRun t y cp0 dim0 knots0 lambdas stepSize maxiter epsIter
            jumpEps).fits.getD i default).gamma))
        + 3 * Real.log (t.length : ℝ)
          * ((((plssRun t y cp0 dim0 knots0 lambdas stepSize maxiter epsIter
            jumpEps).fits.getD i default).control_points.length : ℕ) : ℝ))
    ∧ ((plssRun t y cp0 dim0 knots0 lambdas stepSize maxiter epsIter
        jumpEps).dimension_list.getD i 0
      = ((plssRun t y cp0 dim0 knots0 lambdas stepSize maxiter epsIter
          jumpEps).fits.getD i default).control_points.length) := by
  have hlen := plssRun_fits_length t y cp0 dim0 knots0 lambdas stepSize maxiter
    epsIter jumpEps
  rw [hlen] at hi
  simp only [plssRun]
  exact outerFold_bic t y stepSize maxiter epsIter jumpEps lambdas _ i hi

/-- Witness for C1 at a one-lambda run with `maxiter = 0`. -/
theorem claim_C1_witness :
    0 < (plssRun [0] [e1] [e1, e2] 2 [0, 1] [0] 1 0 1e-3 1e-4).fits.length
    ∧ (((plssRun [0] [e1] [e1, e2] 2 [0, 1] [0] 1 0 1e-3 1e-4).bic_list.getD 0 0
        = (([(0 : ℝ)] : List ℝ).length : ℝ) * Real.log (calculate_loss [e1]
            (((plssRun [0] [e1] [e1, e2] 2 [0, 1] [0] 1 0 1e-3
              1e-4).fits.getD 0 default).gamma))
          + 3 * Real.log (([(0 : ℝ)] : List ℝ).length : ℝ)
            * ((((plssRun [0] [e1] [e1, e2] 2 [0, 1] [0] 1 0 1e-3
              1e-4).fits.getD 0 default).control_points.length : ℕ) : ℝ))
      ∧ ((plssRun [0] [e1] [e1, e2] 2 [0, 1] [0] 1 0 1e-3 1e-4).dimension_list.getD
          0 0
        = ((plssRun [0] [e1] [e1, e2] 2 [0, 1] [0] 1 0 1e-3
            1e-4).fits.getD 0 default).control_points.length)) := by
  have h0 : 0 < (plssRun [0] [e1] [e1, e2] 2 [0, 1] [0] 1 0 1e-3 1e-4).fits.length := by
    rw [plssRun_fits_length]
    norm_num
  exact ⟨h0, claim_C1 [0] [e1] [e1, e2] 2 [0, 1] [0] 1 0 1e-3 1e-4 0 h0⟩

theorem restrict_zero : restrict 0 (-1) 1 = 0 :=
  restrict_eq_self (by norm_num) (by norm_num)

theorem geodesic_lower_0_e1_e2 : geodesic_lower 0 e1 e2 0 1 = e1 := by
  have hsin : (1e-12 : ℝ) ≤ Real.sin (Real.arccos (dot e1 e2)) := by
    rw [dot_e1_e2, Real.arccos_zero, Real.sin_pi_div_two]
    norm_num
  exact (geodesic_lower_clamped e1 e2 0 1 0 dot_e1_e1 dot_e2_e2 hsin
    (by norm_num)).1 (le_refl 0)

theorem filterIn_01 : filterIn (0 : ℝ) 1 [0] = [0] := by
  rw [filterIn, if_pos (by norm_num), filterIn]

theorem filterIn_12 : filterIn (1 : ℝ) 2 [0] = [] := by
  rw [filterIn, if_neg (by norm_num), filterIn]

theorem pg_counterexample_eval :
    piecewise_geodesic [0] [e1, e2, e3] [0, 1, 2] = [e1] := by
  rw [piecewise_geodesic_eq_flatten]
  rw [segmentPieces]
  norm_num [List.range_succ, filterIn_01, filterIn_12, geodesic_vec,
    geodesic_lower_0_e1_e2]

theorem loss_e1_e1 : calculate_loss [e1] [e1] = 0 := by
  rw [calculate_loss, show ([e1] : List Vec3).length = 1 from rfl,
    show List.range 1 = [0] from rfl]
  simp [spherical_dist_self_unit dot_e1_e1]

theorem jump_counterexample_eval :
    jump_linear [e1, e2, e3] [0, 1, 2]
      = [Vec3.mk (Real.pi / 2) 0 (Real.pi / 2)] := by
  rw [jump_linear]
  norm_num [List.range_succ, Acos, dot_e1_e2, dot_e2_e3, restrict_zero,
    Real.arccos_zero, Real.sin_pi_div_two, Real.cos_pi_div_two]
  ext <;> simp [e1, e2, e3]

/-- Counterexample for C1: at a concrete one-lambda run (with `lam = 1` and
a genuinely kinked control polygon) the recorded BIC is
`n*ln(loss) + 3*ln(n)*K = 0`, while the spec's formula with `R` equal to the
final loss-PLUS-PENALTY objective of the recorded fit gives
`ln(sqrt(pi^2/2)) > 0`: the source computes the BIC from the pure loss and
ignores the penalty term. -/
theorem claim_C1_counterexample :
    (plssRun [0] [e1] [e1, e2, e3] 3 [0, 1, 2] [1] 1 0 1e-3 1e-4).fits.getD 0
        default
      = FitRecord.mk [e1] [e1, e2, e3] [0, 1, 2] 3 1
    ∧ (plssRun [0] [e1] [e1, e2, e3] 3 [0, 1, 2] [1] 1 0 1e-3 1e-4).bic_list.getD
        0 0
      ≠ bic_spec 1 (objective_total [0] [e1] 1 [e1, e2, e3] [0, 1, 2]) 3 := by
  have hpg := pg_counterexample_eval
  have hout : (plssRun [0] [e1] [e1, e2, e3] 3 [0, 1, 2] [1] 1 0 1e-3 1e-4).fits.getD
        0 default = FitRecord.mk [e1] [e1, e2, e3] [0, 1, 2] 3 1
      ∧ (plssRun [0] [e1] [e1, e2, e3] 3 [0, 1, 2] [1] 1 0 1e-3 1e-4).bic_list.getD
        0 0 = 0 := by
    constructor
    · simp only [plssRun, outerFold, innerLoop, initState]
      simp [hpg]
    · simp only [plssRun, outerFold, innerLoop, initState]
      simp [hpg, loss_e1_e1]
  have hspec : bic_spec 1 (objective_total [0] [e1] 1 [e1, e2, e3] [0, 1, 2]) 3
      = Real.log (Real.sqrt (Real.pi ^ 2 / 2)) := by
    rw [bic_spec, objective_total, pg_counterexample_eval, loss_e1_e1,
      jump_counterexample_eval]
    have hss : sum_sq [Vec3.mk (Real.pi / 2) 0 (Real.pi / 2)] = Real.pi ^ 2 / 2 := by
      simp [sum_sq, dot]
      ring
    rw [hss]
    norm_num
  have hgt : (1 : ℝ) < Real.sqrt (Real.pi ^ 2 / 2) := by
    rw [show (1 : ℝ) = Real.sqrt 1 by rw [Real.sqrt_one]]
    apply Real.sqrt_lt_sqrt (by norm_num)
    nlinarith [Real.pi_gt_three]
  refine ⟨hout.1, ?_⟩
  rw [hout.2, hspec]
  exact fun h => absurd (Real.log_pos hgt) (by rw [← h]; norm_num)

end Spheresmooth
